import Mathlib

/-!
Verification development for the dynamic proto-schema loading core of the
repository (`intrinsic/executive/code/code_execution.py`).

The Python functions are shallowly embedded as executable Lean functions:
 - Python `str.replace` / suffix tests / `split(...)[-1]` are modelled over
   `List Char` (for nonempty patterns, which is the only way the source uses
   them);
 - Python `dict` is modelled as an association list with update-in-place
   insertion (`Dict`);
 - the process-wide default descriptor pool and the `sys.modules` cache are
   modelled as an explicit state `St` threaded through the functions;
 - Python exceptions are modelled by `Except PyErr`; a raised exception
   propagates while keeping the state reached so far (no rollback), exactly
   as CPython leaves mutated globals in place;
 - the unbounded recursion of `import_from_file_descriptor_set` is modelled
   with an explicit fuel parameter (CPython would raise `RecursionError`
   where the fuel runs out).
-/

set_option autoImplicit false

deriving instance DecidableEq for Except

namespace CodeExec

/-! ### Python string primitives, modelled over `List Char` -/

/-- One pass of Python `str.replace` for a nonempty pattern, with explicit
fuel (the fuel is instantiated with the length of the string, which always
suffices because every step consumes at least one character). -/
def replaceFuel (pat rep : List Char) : Nat → List Char → List Char
  | 0, s => s
  | _ + 1, [] => []
  | fuel + 1, c :: rest =>
    if pat.length ≠ 0 ∧ (c :: rest).take pat.length = pat then
      rep ++ replaceFuel pat rep fuel ((c :: rest).drop pat.length)
    else
      c :: replaceFuel pat rep fuel rest

/-- Python `s.replace(pat, rep)` for a nonempty pattern: replace all
non-overlapping occurrences, left to right. -/
def pyReplace (s pat rep : String) : String :=
  String.mk (replaceFuel pat.data rep.data s.data.length s.data)

/-- Python `s.endswith(suffix)`. -/
def pyEndsWith (s suffix : String) : Bool :=
  decide (s.data.length ≥ suffix.data.length) &&
    decide (s.data.drop (s.data.length - suffix.data.length) = suffix.data)

/-- The characters after the last occurrence of `sep` (the whole string when
`sep` does not occur): Python `s.split(sep)[-1]` for a one-character
separator. -/
def lastSegmentChars (sep : Char) (s : List Char) : List Char :=
  s.foldl (fun acc c => if c = sep then [] else acc ++ [c]) []

/-- Python `s.split(sep)[-1]` for a one-character separator. -/
def pyLastSegment (s : String) (sep : Char) : String :=
  String.mk (lastSegmentChars sep s.data)

/-! ### Python `dict[str, str]`, as an association list with unique keys -/

/-- Python `dict[str, str]`. Built only through `Dict.insert` starting from
`[]`, so keys are unique and `lookup` returns the latest binding. -/
abbrev Dict := List (String × String)

/-- Python `d[k] = v`: update in place if the key exists, append otherwise. -/
def Dict.insert : Dict → String → String → Dict
  | [], k, v => [(k, v)]
  | (k', v') :: rest, k, v =>
    if k' = k then (k, v) :: rest else (k', v') :: Dict.insert rest k v

/-- Python `d.get(k)` / `k in d`: first binding of the key. -/
def Dict.lookup : Dict → String → Option String
  | [], _ => none
  | (k', v') :: rest, k => if k' = k then some v' else Dict.lookup rest k

/-! ### Data model: `FileDescriptorProto` and `FileDescriptorSet`

Only the fields `code_execution.py` reads are modelled.  Top-level symbols
are kept in the four separate ordered lists of the real
`descriptor_pb2.FileDescriptorProto` (`message_type`, `enum_type`,
`service`, `extension`); messages carry their (flat, int32-valued) fields so
that the Any codec can be modelled. -/

/-- A proto field declaration (`FieldDescriptorProto`, restricted to the
name and number of a varint-encoded int32 field). -/
structure FieldProto where
  name : String
  number : Nat
deriving DecidableEq

/-- A top-level message declaration (`DescriptorProto`). -/
structure DescriptorProto where
  name : String
  field : List FieldProto
deriving DecidableEq

/-- A top-level enum/service/extension declaration; only its name is ever
read by the code under verification. -/
structure NamedSymbol where
  name : String
deriving DecidableEq

/-- `descriptor_pb2.FileDescriptorProto`, restricted to the fields the code
reads. -/
structure FileDescriptorProto where
  name : String
  package : String
  message_type : List DescriptorProto
  enum_type : List NamedSymbol
  service : List NamedSymbol
  extension : List NamedSymbol
  dependency : List String
deriving DecidableEq

/-- `descriptor_pb2.FileDescriptorSet`. -/
structure FileDescriptorSet where
  file : List FileDescriptorProto
deriving DecidableEq

/-- The names of the top-level symbols of a file, in the iteration order of
the source (`message_type`, `enum_type`, `service`, `extension`, each in
declaration order). -/
def symbolsOf (f : FileDescriptorProto) : List String :=
  f.message_type.map (fun d => d.name) ++ f.enum_type.map (fun d => d.name) ++
    f.service.map (fun d => d.name) ++ f.extension.map (fun d => d.name)

/-! ### Name conversions (`_to_proto_module`, `_to_proto_filename`,
`_proto_full_name`) -/

/-- Converts "foo/bar/baz.proto" -> "foo.bar.baz_pb2" (source line 23). -/
def _to_proto_module (proto_filename : String) : String :=
  pyReplace (pyReplace proto_filename ".proto" "_pb2") "/" "."

/-- Converts "foo.bar.baz_pb2" -> "foo/bar/baz.proto" (source line 29). -/
def _to_proto_filename (proto_module : String) : String :=
  pyReplace (pyReplace proto_module "." "/") "_pb2" ".proto"

/-- Full name of a proto symbol in a package (source line 34). -/
def _proto_full_name (pkg : String) (symbol_name : String) : String :=
  if pkg = "" then symbol_name else pkg ++ "." ++ symbol_name

/-- Fully-qualified names of the top-level symbols of a file. -/
def fullSymbolsOf (f : FileDescriptorProto) : List String :=
  (symbolsOf f).map (_proto_full_name f.package)

/-! ### The default descriptor pool (Live Registry) -/

/-- The default descriptor pool, as the append-only list of the file
descriptors registered so far, in registration order. -/
structure Pool where
  files : List FileDescriptorProto
deriving DecidableEq

/-- `descriptor_pool.Default().FindFileContainingSymbol(full)`: the
registered file declaring the symbol (the pool keeps at most one). -/
def Pool.findFileContainingSymbol (pool : List FileDescriptorProto)
    (full : String) : Option FileDescriptorProto :=
  pool.find? (fun g => decide (full ∈ fullSymbolsOf g))

/-- Modelled behaviour of `descriptor_pool.Default().Add(f)` immediately
followed by `FindFileByName(f.name)` (source lines 292-295): re-adding an
identical file is a no-op, a name clash with different contents fails, and
building a file whose dependency is absent from the pool fails. -/
def Pool.add (p : Pool) (f : FileDescriptorProto) :
    Except String Pool :=
  match p.files.find? (fun g => g.name = f.name) with
  | some g => if g = f then .ok p else .error ("duplicate file " ++ f.name)
  | none =>
    if f.dependency.all (fun d => p.files.any (fun g => g.name = d)) then
      .ok { files := p.files ++ [f] }
    else
      .error ("dependency missing for " ++ f.name)

/-! ### `_create_symbol_to_file` (source lines 49-93) -/

/-- One step of the symbol loop of `_create_symbol_to_file`: when the
default pool already declares the symbol, record the declaring pool file's
name under the symbol's full name. -/
def symStep (pool : List FileDescriptorProto) (f : FileDescriptorProto)
    (d : Dict) (s : String) : Dict :=
  let full := _proto_full_name f.package s
  match Pool.findFileContainingSymbol pool full with
  | some g => d.insert full g.name
  | none => d

/-- Inner loop of `_create_symbol_to_file`: record, for every top-level
symbol of `f` that the default pool already knows, the name of the pool file
declaring it. -/
def symbolToFileForFile (pool : List FileDescriptorProto)
    (f : FileDescriptorProto) (d : Dict) : Dict :=
  (symbolsOf f).foldl (symStep pool f) d

/-- `_create_symbol_to_file`: map from full symbol name to the default-pool
file declaring it, for the symbols of the given file descriptor set that the
pool already knows (misses are simply absent). -/
def _create_symbol_to_file (file_descriptor_set : FileDescriptorSet)
    (pool : List FileDescriptorProto) : Dict :=
  file_descriptor_set.file.foldl
    (fun d f => symbolToFileForFile pool f d) []

/-! ### Errors raised by the code -/

/-- The exceptions `code_execution.py` can raise, as structured values.
Each constructor records the data interpolated into the corresponding
Python exception message:
 - `badModuleName`: `ValueError("Module name must end with _pb2, ...")`;
 - `compatConflict fileName symbol path defaultPath`: the
   `TypeError("Found inconsistent path in new file descriptor set in file
   {fileName}. The message {symbol} is contained in {path} in the default
   pool, but another message in {fileName} in the default pool was in
   {defaultPath}")` of `_create_default_paths`;
 - `keyError k`: the uncaught `KeyError` of the unguarded
   `path_to_default_path[...]` lookups;
 - `fileNotFound f`: `ValueError("Could not find file {f} in file
   descriptor set")`;
 - `poolError`: failure of `descriptor_pool.Default().Add` /
   `FindFileByName` (duplicate or missing-dependency);
 - `symbolNotFound full`: `ValueError("Could not find params message {full}
   in file descriptor set")`;
 - `typeMismatch got expected`: `ValueError("returned value is a proto
   message with the wrong type ...")`;
 - `attributeError n`: `getattr` failure;
 - `decodeError`: `message.DecodeError` from `ParseFromString`;
 - `outOfFuel`: stands for the `RecursionError` of unbounded recursion. -/
inductive PyErr where
  | badModuleName (moduleName : String)
  | compatConflict (fileName symbol path defaultPath : String)
  | keyError (key : String)
  | fileNotFound (fileName : String)
  | poolError (msg : String)
  | symbolNotFound (fullName : String)
  | typeMismatch (got expected : String)
  | attributeError (name : String)
  | decodeError
  | outOfFuel
deriving DecidableEq

/-! ### `_create_default_paths` (source lines 96-151) -/

/-- The per-symbol loop of `_create_default_paths` for one file: walk the
top-level symbols in declaration order, remembering in `acc` the default
path bound so far (`""` = none yet, Python's falsy string).  A symbol whose
full name the symbol map knows either establishes the binding or, when it
disagrees with the established binding, raises the compatibility
`TypeError`. -/
def defaultPathLoop (stf : Dict) (fileName pkg : String) :
    String → List String → Except PyErr String
  | acc, [] => .ok acc
  | acc, s :: rest =>
    let full := _proto_full_name pkg s
    match stf.lookup full with
    | none => defaultPathLoop stf fileName pkg acc rest
    | some path =>
      let acc' := if acc = "" then path else acc
      if acc' ≠ path then
        .error (.compatConflict fileName full path acc')
      else
        defaultPathLoop stf fileName pkg acc' rest

/-- The canonical ("default") path `_create_default_paths` computes for one
file: the path established by its symbols, or its own name when no symbol
was found in the symbol map. -/
def fileCanonical (stf : Dict) (f : FileDescriptorProto) :
    Except PyErr String :=
  match defaultPathLoop stf f.name f.package "" (symbolsOf f) with
  | .error e => .error e
  | .ok d => .ok (if d = "" then f.name else d)

/-- The file loop of `_create_default_paths`: for each file record
`map[file.name] = default` and `map[default] = default`. -/
def defaultPathsGo (stf : Dict) :
    List FileDescriptorProto → Dict → Except PyErr Dict
  | [], d => .ok d
  | f :: rest, d =>
    match fileCanonical stf f with
    | .error e => .error e
    | .ok c => defaultPathsGo stf rest ((d.insert f.name c).insert c c)

/-- `_create_default_paths`: maps file names in `file_descriptor_set` to
file names in the default pool (the `PathRewriteMap`). -/
def _create_default_paths (file_descriptor_set : FileDescriptorSet)
    (symbol_to_file : Dict) : Except PyErr Dict :=
  defaultPathsGo symbol_to_file file_descriptor_set.file []

/-! ### `_create_compatible_file_descriptor_set` (source lines 154-192) -/

/-- Rewrite every dependency string through the path map; a missing key is
the uncaught `KeyError` of `path_to_default_path[dep]`. -/
def rewriteDeps (ptd : Dict) : List String → Except PyErr (List String)
  | [] => .ok []
  | d :: ds =>
    match ptd.lookup d with
    | none => .error (.keyError d)
    | some d' =>
      match rewriteDeps ptd ds with
      | .error e => .error e
      | .ok ds' => .ok (d' :: ds')

/-- Rewrite each file's own name and then its dependency strings through the
path map, in source order. -/
def rewriteFiles (ptd : Dict) :
    List FileDescriptorProto → Except PyErr (List FileDescriptorProto)
  | [] => .ok []
  | f :: rest =>
    match ptd.lookup f.name with
    | none => .error (.keyError f.name)
    | some newName =>
      match rewriteDeps ptd f.dependency with
      | .error e => .error e
      | .ok newDeps =>
        match rewriteFiles ptd rest with
        | .error e => .error e
        | .ok rest' => .ok ({ f with name := newName, dependency := newDeps } :: rest')

/-- `_create_compatible_file_descriptor_set`: a copy of the set with every
file name and every dependency string replaced by its image under
`path_to_default_path`. -/
def _create_compatible_file_descriptor_set
    (new_file_descriptor_set : FileDescriptorSet)
    (path_to_default_path : Dict) : Except PyErr FileDescriptorSet :=
  match rewriteFiles path_to_default_path new_file_descriptor_set.file with
  | .error e => .error e
  | .ok fs => .ok { file := fs }

/-! ### Modules and the interpreter state -/

/-- A generated proto module (`types.ModuleType` with `DESCRIPTOR` and the
message classes built by `builder.BuildTopDescriptorsAndMessages`): its name
and the file descriptor it was built from. -/
structure Module where
  name : String
  descriptorFile : FileDescriptorProto
deriving DecidableEq

/-- The process-wide state read and mutated by
`import_from_file_descriptor_set`: the default descriptor pool and the
`sys.modules` cache (newest binding first, so lookup sees the latest). -/
structure St where
  pool : Pool
  modules : List (String × Module)
deriving DecidableEq

/-- Lookup in the `sys.modules` cache; also models
`importlib.import_module` for dynamically generated modules (no generated
`*_pb2.py` files exist on disk in the dynamic-loading scenario this core
serves, so a regular import succeeds exactly on a cache hit). -/
def lookupModule : List (String × Module) → String → Option Module
  | [], _ => none
  | (n, m) :: rest, k => if n = k then some m else lookupModule rest k

/-- One round of the dependency loop of `import_from_file_descriptor_set`
(source lines 282-288): import each dependency module in order, threading
the state and propagating the first failure. -/
def processDeps (imp : String → St → Except PyErr Module × St) :
    List String → St → Except PyErr Unit × St
  | [], st => (.ok (), st)
  | d :: ds, st =>
    match imp (_to_proto_module d) st with
    | (.error e, st') => (.error e, st')
    | (.ok _, st') => processDeps imp ds st'

/-- `import_from_file_descriptor_set` (source lines 195-311), with explicit
fuel for the recursion.  Mirrors the source step by step: module-name
suffix check; regular-import attempt (the `sys.modules` cache); lazily
computed `symbol_to_file` and `path_to_default_path`; path rewriting;
locating the file; recursive import of its dependencies (passing the
rewritten set and both maps); pool registration; module construction and
caching. -/
def import_from_file_descriptor_set :
    Nat → String → FileDescriptorSet → Option Dict → Option Dict → St →
      Except PyErr Module × St
  | 0, _, _, _, _, st => (.error .outOfFuel, st)
  | fuel + 1, module_name, file_descriptor_set, stfOpt, ptdOpt, st =>
    if pyEndsWith module_name "_pb2" = false then
      (.error (.badModuleName module_name), st)
    else
      match lookupModule st.modules module_name with
      | some m => (.ok m, st)
      | none =>
        let stf :=
          match stfOpt with
          | some d => d
          | none => _create_symbol_to_file file_descriptor_set st.pool.files
        match (match ptdOpt with
               | some d => Except.ok d
               | none => _create_default_paths file_descriptor_set stf) with
        | .error e => (.error e, st)
        | .ok ptd =>
          match _create_compatible_file_descriptor_set file_descriptor_set ptd with
          | .error e => (.error e, st)
          | .ok fds2 =>
            let file_name := _to_proto_filename module_name
            match fds2.file.find? (fun f => f.name = file_name) with
            | none => (.error (.fileNotFound file_name), st)
            | some fdp =>
              match processDeps
                  (fun mn s =>
                    import_from_file_descriptor_set fuel mn fds2 (some stf) (some ptd) s)
                  fdp.dependency st with
              | (.error e, st') => (.error e, st')
              | (.ok _, st') =>
                match st'.pool.add fdp with
                | .error msg => (.error (.poolError msg), st')
                | .ok pool' =>
                  let md : Module := { name := module_name, descriptorFile := fdp }
                  (.ok md, { pool := pool', modules := (module_name, md) :: st'.modules })

/-- Importing one module against fixed maps: the function the dependency
loop of `import_from_file_descriptor_set` applies to each dependency. -/
def importOne (fuel : Nat) (fds : FileDescriptorSet) (stf ptd : Dict)
    (mn : String) (s : St) : Except PyErr Module × St :=
  import_from_file_descriptor_set fuel mn fds (some stf) (some ptd) s

/-! ### Concrete message values and the proto wire format

`unpack_params_message` / `serialize_return_value_message` move concrete
message instances through `google.protobuf.any_pb2.Any`.  Messages are
modelled as flat records of int32 fields (which is all the scenarios of the
specification use); the wire format is the real varint encoding for fields
with numbers below 16, and `Any` serialization uses its two length-delimited
fields. -/

/-- The descriptor a generated message class carries
(`cls.DESCRIPTOR.full_name` and its fields). -/
structure MsgDescriptor where
  full_name : String
  fields : List FieldProto
deriving DecidableEq

/-- A concrete message instance: its descriptor plus one value per field. -/
structure MsgValue where
  desc : MsgDescriptor
  vals : List (String × Nat)
deriving DecidableEq

/-- `instance.DESCRIPTOR.full_name`. -/
def MsgValue.typeName (m : MsgValue) : String := m.desc.full_name

/-- A freshly constructed instance (`message_class()`): every field at its
default value 0. -/
def MsgValue.default (desc : MsgDescriptor) : MsgValue :=
  { desc := desc, vals := desc.fields.map (fun fd => (fd.name, 0)) }

/-- Assignment to one field of an instance. -/
def MsgValue.setField (m : MsgValue) (n : String) (v : Nat) : MsgValue :=
  { m with vals := m.vals.map (fun p => if p.1 = n then (n, v) else p) }

/-- The value of one field of an instance (0 when never set). -/
def MsgValue.getField (m : MsgValue) (n : String) : Nat :=
  match m.vals.find? (fun p => p.1 = n) with
  | some p => p.2
  | none => 0

/-- Base-128 varint encoding, low group first, with explicit fuel
(instantiated with the value itself, which always suffices). -/
def varintFuel : Nat → Nat → List Nat
  | 0, n => [n % 128]
  | fuel + 1, n => if n < 128 then [n] else (n % 128 + 128) :: varintFuel fuel (n / 128)

/-- Base-128 varint encoding of a natural number. -/
def varint (n : Nat) : List Nat := varintFuel n n

/-- Wire encoding of one field: nothing for the default value 0 (proto3
implicit presence), otherwise the one-byte tag (`number*8 + 0`, field
numbers below 16) followed by the varint value. -/
def serializeField (fd : FieldProto) (v : Nat) : List Nat :=
  if v = 0 then [] else (fd.number * 8) :: varint v

/-- `instance.SerializeToString()`: the fields in descriptor order. -/
def serializeMsg (m : MsgValue) : List Nat :=
  (m.desc.fields.map (fun fd => serializeField fd (m.getField fd.name))).flatten

/-- `google.protobuf.any_pb2.Any`: a type-identifier URL plus opaque payload
bytes. -/
structure AnyMsg where
  type_url : String
  value : List Nat
deriving DecidableEq

/-- `any.Pack(instance)` with the default type-URL prefix. -/
def anyPack (m : MsgValue) : AnyMsg :=
  { type_url := "type.googleapis.com/" ++ m.desc.full_name
    value := serializeMsg m }

/-- `any.SerializeToString()`: field 1 (`type_url`, tag 10) and field 2
(`value`, tag 18), each length-delimited, empty fields skipped. -/
def serializeAny (a : AnyMsg) : List Nat :=
  (if a.type_url.data.length = 0 then [] else
    10 :: varint a.type_url.data.length ++ a.type_url.data.map Char.toNat) ++
  (if a.value.length = 0 then [] else
    18 :: varint a.value.length ++ a.value)

/-- Varint decoding (inverse of `varint` on its image). -/
def parseVarint : List Nat → Option (Nat × List Nat)
  | [] => none
  | b :: rest =>
    if b < 128 then some (b, rest)
    else
      match parseVarint rest with
      | none => none
      | some (v, r) => some (b % 128 + 128 * v, r)

/-- `instance.ParseFromString(bytes)` for flat varint-field messages:
consume tag/value pairs, assigning known field numbers and skipping unknown
ones; a non-varint wire type or truncated input is a decode error.  Fuel is
instantiated with the byte count plus one, which always suffices. -/
def parseFields (desc : MsgDescriptor) : Nat → List Nat → MsgValue → Option MsgValue
  | _, [], m => some m
  | 0, _ :: _, _ => none
  | fuel + 1, b :: rest, m =>
    if b % 8 ≠ 0 then none
    else
      match parseVarint rest with
      | none => none
      | some (v, r) =>
        match desc.fields.find? (fun fd => fd.number = b / 8) with
        | some fd => parseFields desc fuel r (m.setField fd.name v)
        | none => parseFields desc fuel r m

/-- `any.TypeName()`: the part of the type URL after the last `/`. -/
def anyTypeName (a : AnyMsg) : String := pyLastSegment a.type_url '/'

/-- `any.Unpack(instance)` as used by the source: when the type name in the
URL does not match the instance's descriptor full name, `Unpack` returns
`False` and leaves the instance at its defaults — the source ignores the
returned flag; otherwise the payload is parsed (a malformed payload raises
`DecodeError`). -/
def anyUnpack (a : AnyMsg) (desc : MsgDescriptor) : Except PyErr MsgValue :=
  if anyTypeName a = desc.full_name then
    match parseFields desc (a.value.length + 1) a.value (MsgValue.default desc) with
    | some m => .ok m
    | none => .error .decodeError
  else
    .ok (MsgValue.default desc)

/-- `getattr(module, message_name)` for the message classes built by
`builder.BuildTopDescriptorsAndMessages`: the top-level message of the
module's file with that simple name, as a message class descriptor. -/
def Module.getClass (md : Module) (message_name : String) : Option MsgDescriptor :=
  match md.descriptorFile.message_type.find? (fun d => d.name = message_name) with
  | some d =>
    some { full_name := _proto_full_name md.descriptorFile.package d.name
           fields := d.field }
  | none => none

/-! ### `_find_module_containing_message` (source lines 314-341) -/

/-- `_find_module_containing_message`: the module of the first file of the
set declaring the given full name as a *top-level message* (the source
scans only `file.message_type`); absence raises
`ValueError("Could not find params message ...")`. -/
def _find_module_containing_message (message_full_name : String)
    (file_descriptor_set : FileDescriptorSet) : Except PyErr String :=
  match file_descriptor_set.file.find?
      (fun f => f.message_type.any
        (fun mt => _proto_full_name f.package mt.name = message_full_name)) with
  | some f => .ok (_to_proto_module f.name)
  | none => .error (.symbolNotFound message_full_name)

/-! ### `unpack_params_message` (source lines 344-373) -/

/-- `unpack_params_message`: extract the full type name from the Any's
`type_url`, locate the module declaring it as a top-level message, import
that module (threading the live state), fetch the message class by the last
dot-segment of the URL, and unpack the Any into a fresh instance. -/
def unpack_params_message (fuel : Nat) (params_any : AnyMsg)
    (file_descriptor_set : FileDescriptorSet) (st : St) :
    Except PyErr MsgValue × St :=
  let params_full_message_name := pyLastSegment params_any.type_url '/'
  match _find_module_containing_message params_full_message_name
      file_descriptor_set with
  | .error e => (.error e, st)
  | .ok params_module_name =>
    match import_from_file_descriptor_set fuel params_module_name
        file_descriptor_set none none st with
    | (.error e, st') => (.error e, st')
    | (.ok md, st') =>
      let message_name := pyLastSegment params_any.type_url '.'
      match Module.getClass md message_name with
      | none => (.error (.attributeError message_name), st')
      | some cls =>
        match anyUnpack params_any cls with
        | .error e => (.error e, st')
        | .ok params => (.ok params, st')

/-! ### `serialize_return_value_message` (source lines 376-409) -/

/-- `serialize_return_value_message`: `None` (the "no value" sentinel) maps
to the explicit "nothing to encode" result `none`; an instance whose
declared full type name differs from the expected one raises the
type-mismatch `ValueError`; otherwise the instance is packed into an `Any`
and its serialized bytes are returned.  (The `isinstance` guard of the
source cannot fire in this typed model.) -/
def serialize_return_value_message (return_value : Option MsgValue)
    (return_value_message_full_name : String) :
    Except PyErr (Option (List Nat)) :=
  match return_value with
  | none => .ok none
  | some v =>
    if v.typeName ≠ return_value_message_full_name then
      .error (.typeMismatch v.typeName return_value_message_full_name)
    else
      .ok (some (serializeAny (anyPack v)))

/-! ### Lemmas about `Dict` -/

theorem Dict.lookup_insert (d : Dict) (k v q : String) :
    Dict.lookup (Dict.insert d k v) q = if k = q then some v else Dict.lookup d q := by
  induction d with
  | nil => simp [Dict.insert, Dict.lookup]
  | cons p rest ih =>
    obtain ⟨k₁, v₁⟩ := p
    by_cases h₁ : k₁ = k
    · subst h₁
      by_cases h₂ : k₁ = q <;> simp [Dict.insert, Dict.lookup, h₂]
    · by_cases h₂ : k₁ = q
      · subst h₂
        have h₃ : ¬ k = k₁ := fun h => h₁ h.symm
        simp [Dict.insert, Dict.lookup, h₁, h₃]
      · simp [Dict.insert, Dict.lookup, h₁, h₂, ih]

theorem Dict.lookup_insert_self (d : Dict) (k v : String) :
    Dict.lookup (Dict.insert d k v) k = some v := by
  simp [Dict.lookup_insert]

/-- Key presence survives any later insertion. -/
theorem Dict.lookup_insert_isSome (d : Dict) (k v q : String)
    (h : Dict.lookup d q ≠ none) :
    Dict.lookup (Dict.insert d k v) q ≠ none := by
  rw [Dict.lookup_insert]
  split <;> simp_all

/-! ### Lemmas about `defaultPathLoop` -/

/-- Once a default path is established it never changes: the loop started at
a non-falsy accumulator can only return that accumulator. -/
theorem defaultPathLoop_ok_fixed (stf : Dict) (fn pkg : String) :
    ∀ (syms : List String) (acc d : String), acc ≠ "" →
      defaultPathLoop stf fn pkg acc syms = .ok d → d = acc := by
  intro syms
  induction syms with
  | nil =>
    intro acc d hacc h
    simp only [defaultPathLoop] at h
    exact (Except.ok.injEq _ _).mp h.symm
  | cons s rest ih =>
    intro acc d hacc h
    simp only [defaultPathLoop] at h
    cases hl : Dict.lookup stf (_proto_full_name pkg s) with
    | none => rw [hl] at h; exact ih acc d hacc h
    | some path =>
      rw [hl] at h
      simp only [if_neg hacc] at h
      by_cases hp : acc = path
      · rw [if_neg (fun hc => hc hp)] at h
        exact ih acc d hacc h
      · rw [if_pos hp] at h
        cases h

/-- If the loop succeeds, every non-falsy hit among the remaining symbols
equals the returned default path. -/
theorem defaultPathLoop_ok_hits (stf : Dict) (fn pkg : String) :
    ∀ (syms : List String) (acc d : String),
      defaultPathLoop stf fn pkg acc syms = .ok d →
      ∀ s ∈ syms, ∀ p, Dict.lookup stf (_proto_full_name pkg s) = some p →
        p ≠ "" → p = d := by
  intro syms
  induction syms with
  | nil => intro acc d _ s hs; simp at hs
  | cons s₀ rest ih =>
    intro acc d h s hs p hp hpne
    simp only [defaultPathLoop] at h
    cases hl : Dict.lookup stf (_proto_full_name pkg s₀) with
    | none =>
      rw [hl] at h
      rcases List.mem_cons.mp hs with rfl | hmem
      · rw [hl] at hp; cases hp
      · exact ih acc d h s hmem p hp hpne
    | some path =>
      rw [hl] at h
      by_cases hne : (if acc = "" then path else acc) ≠ path
      · simp only [if_pos hne] at h; cases h
      · simp only [if_neg hne] at h
        have hacc' : (if acc = "" then path else acc) = path := by
          by_contra hc; exact hne hc
        rw [hacc'] at h
        rcases List.mem_cons.mp hs with rfl | hmem
        · rw [hl] at hp
          have hpp : path = p := by injection hp
          subst hpp
          exact (defaultPathLoop_ok_fixed stf fn pkg rest path d hpne h).symm
        · exact ih path d h s hmem p hp hpne

/-- Structure of a loop failure: the raised compatibility conflict names
this file, a symbol of the remaining list together with its recorded path,
and a distinct, non-falsy previously-established path — either the starting
accumulator or the recorded path of another symbol of the list. -/
theorem defaultPathLoop_error (stf : Dict) (fn pkg : String) :
    ∀ (syms : List String) (acc : String) (e : PyErr),
      defaultPathLoop stf fn pkg acc syms = .error e →
      ∃ s p q, s ∈ syms ∧ e = .compatConflict fn (_proto_full_name pkg s) p q ∧
        Dict.lookup stf (_proto_full_name pkg s) = some p ∧ q ≠ p ∧ q ≠ "" ∧
        (q = acc ∨ ∃ s', s' ∈ syms ∧
          Dict.lookup stf (_proto_full_name pkg s') = some q) := by
  intro syms
  induction syms with
  | nil => intro acc e h; simp [defaultPathLoop] at h
  | cons s₀ rest ih =>
    intro acc e h
    simp only [defaultPathLoop] at h
    cases hl : Dict.lookup stf (_proto_full_name pkg s₀) with
    | none =>
      rw [hl] at h
      obtain ⟨s, p, q, hs, he, hp, hqp, hqne, hq⟩ := ih acc e h
      refine ⟨s, p, q, List.mem_cons_of_mem _ hs, he, hp, hqp, hqne, ?_⟩
      rcases hq with hq | ⟨s', hs', hq'⟩
      · exact Or.inl hq
      · exact Or.inr ⟨s', List.mem_cons_of_mem _ hs', hq'⟩
    | some path =>
      rw [hl] at h
      by_cases hne : (if acc = "" then path else acc) ≠ path
      · simp only [if_pos hne] at h
        have he : e = .compatConflict fn (_proto_full_name pkg s₀) path
            (if acc = "" then path else acc) := (Except.error.inj h).symm
        have hacc : ¬ acc = "" := by
          intro hc; rw [if_pos hc] at hne; exact hne rfl
        rw [if_neg hacc] at he hne
        exact ⟨s₀, path, acc, List.mem_cons_self _ _, he, hl, hne, hacc, Or.inl rfl⟩
      · simp only [if_neg hne] at h
        have hacc' : (if acc = "" then path else acc) = path := by
          by_contra hc; exact hne hc
        rw [hacc'] at h
        obtain ⟨s, p, q, hs, he, hp, hqp, hqne, hq⟩ := ih path e h
        refine ⟨s, p, q, List.mem_cons_of_mem _ hs, he, hp, hqp, hqne, ?_⟩
        rcases hq with hq | ⟨s', hs', hq'⟩
        · exact Or.inr ⟨s₀, List.mem_cons_self _ _, by rw [hl, hq]⟩
        · exact Or.inr ⟨s', List.mem_cons_of_mem _ hs', hq'⟩

/-- Two distinct non-falsy recorded paths among the symbols force the loop
started at the falsy accumulator to fail. -/
theorem defaultPathLoop_conflict (stf : Dict) (fn pkg : String)
    (syms : List String) (s₁ s₂ : String) (p₁ p₂ : String)
    (hs₁ : s₁ ∈ syms) (hs₂ : s₂ ∈ syms)
    (hp₁ : Dict.lookup stf (_proto_full_name pkg s₁) = some p₁)
    (hp₂ : Dict.lookup stf (_proto_full_name pkg s₂) = some p₂)
    (h₁ : p₁ ≠ "") (h₂ : p₂ ≠ "") (hne : p₁ ≠ p₂) :
    ∃ e, defaultPathLoop stf fn pkg "" syms = .error e := by
  cases h : defaultPathLoop stf fn pkg "" syms with
  | ok d =>
    have e₁ := defaultPathLoop_ok_hits stf fn pkg syms "" d h s₁ hs₁ p₁ hp₁ h₁
    have e₂ := defaultPathLoop_ok_hits stf fn pkg syms "" d h s₂ hs₂ p₂ hp₂ h₂
    exact absurd (e₁.trans e₂.symm) hne
  | error e => exact ⟨e, rfl⟩

/-- Specification-side notion for the Path Rewriter: the recorded canonical
path of the first symbol of the file (in declaration order) that is present
in the symbol index. -/
def firstHit (stf : Dict) (f : FileDescriptorProto) : Option String :=
  (symbolsOf f).findSome? (fun s => Dict.lookup stf (_proto_full_name f.package s))

/-- A symbol list without hits leaves the accumulator untouched. -/
theorem defaultPathLoop_ok_of_no_hits (stf : Dict) (fn pkg : String) :
    ∀ (syms : List String) (acc : String),
      (∀ s ∈ syms, Dict.lookup stf (_proto_full_name pkg s) = none) →
      defaultPathLoop stf fn pkg acc syms = .ok acc := by
  intro syms
  induction syms with
  | nil => intro acc _; rfl
  | cons s₀ rest ih =>
    intro acc hnone
    simp only [defaultPathLoop]
    rw [hnone s₀ (List.mem_cons_self _ _)]
    exact ih acc (fun s hs => hnone s (List.mem_cons_of_mem _ hs))

/-- When every recorded path is non-falsy, a successful loop started at the
falsy accumulator returns the first hit (or the falsy accumulator when
there is none). -/
theorem defaultPathLoop_ok_firstHit (stf : Dict) (fn pkg : String)
    (hvals : ∀ k v, Dict.lookup stf k = some v → v ≠ "") :
    ∀ (syms : List String) (d : String),
      defaultPathLoop stf fn pkg "" syms = .ok d →
      d = (syms.findSome? (fun s => Dict.lookup stf (_proto_full_name pkg s))).getD "" := by
  intro syms
  induction syms with
  | nil =>
    intro d h
    simp only [defaultPathLoop] at h
    simp [(Except.ok.inj h).symm]
  | cons s₀ rest ih =>
    intro d h
    simp only [defaultPathLoop] at h
    cases hl : Dict.lookup stf (_proto_full_name pkg s₀) with
    | none =>
      rw [hl] at h
      rw [List.findSome?_cons, hl]
      exact ih d h
    | some path =>
      rw [hl] at h
      simp at h
      have hd := defaultPathLoop_ok_fixed stf fn pkg rest path d
        (hvals _ _ hl) h
      rw [List.findSome?_cons, hl]
      exact hd

/-- Structure of a `fileCanonical` failure: the compatibility conflict
names the file itself, one of its symbols with that symbol's recorded
canonical path, and the distinct recorded canonical path of another of its
symbols. -/
theorem fileCanonical_error (stf : Dict) (f : FileDescriptorProto) (e : PyErr)
    (h : fileCanonical stf f = .error e) :
    ∃ s p q, s ∈ symbolsOf f ∧
      e = .compatConflict f.name (_proto_full_name f.package s) p q ∧
      Dict.lookup stf (_proto_full_name f.package s) = some p ∧ q ≠ p ∧
      ∃ s', s' ∈ symbolsOf f ∧
        Dict.lookup stf (_proto_full_name f.package s') = some q := by
  simp only [fileCanonical] at h
  cases hl : defaultPathLoop stf f.name f.package "" (symbolsOf f) with
  | ok d => rw [hl] at h; cases h
  | error e' =>
    rw [hl] at h
    obtain ⟨s, p, q, hs, he2, hp, hqp, hqne, hq⟩ :=
      defaultPathLoop_error stf f.name f.package (symbolsOf f) "" e' hl
    have hee : e = e' := (Except.error.inj h).symm
    subst hee
    rcases hq with hq | hq
    · exact absurd hq hqne
    · exact ⟨s, p, q, hs, he2, hp, hqp, hq⟩

/-- Two symbols of one file with distinct non-falsy recorded canonical
paths force `fileCanonical` to fail. -/
theorem fileCanonical_conflict (stf : Dict) (f : FileDescriptorProto)
    (s₁ s₂ p₁ p₂ : String) (hs₁ : s₁ ∈ symbolsOf f) (hs₂ : s₂ ∈ symbolsOf f)
    (hp₁ : Dict.lookup stf (_proto_full_name f.package s₁) = some p₁)
    (hp₂ : Dict.lookup stf (_proto_full_name f.package s₂) = some p₂)
    (h₁ : p₁ ≠ "") (h₂ : p₂ ≠ "") (hne : p₁ ≠ p₂) :
    ∃ e, fileCanonical stf f = .error e := by
  obtain ⟨e, he⟩ := defaultPathLoop_conflict stf f.name f.package (symbolsOf f)
    s₁ s₂ p₁ p₂ hs₁ hs₂ hp₁ hp₂ h₁ h₂ hne
  exact ⟨e, by simp [fileCanonical, he]⟩

/-! ### Lemmas about `defaultPathsGo` / `_create_default_paths` -/

/-- A failing file loop fails with the conflict of one of its files. -/
theorem defaultPathsGo_error (stf : Dict) :
    ∀ (files : List FileDescriptorProto) (d0 : Dict) (e : PyErr),
      defaultPathsGo stf files d0 = .error e →
      ∃ f, f ∈ files ∧ fileCanonical stf f = .error e := by
  intro files
  induction files with
  | nil => intro d0 e h; simp [defaultPathsGo] at h
  | cons f₀ rest ih =>
    intro d0 e h
    simp only [defaultPathsGo] at h
    cases hc : fileCanonical stf f₀ with
    | error e' =>
      rw [hc] at h
      have : e' = e := Except.error.inj h
      subst this
      exact ⟨f₀, List.mem_cons_self _ _, hc⟩
    | ok c =>
      rw [hc] at h
      obtain ⟨f, hf, hfe⟩ := ih _ e h
      exact ⟨f, List.mem_cons_of_mem _ hf, hfe⟩

/-- A file whose canonical-path computation fails makes the whole file loop
fail. -/
theorem defaultPathsGo_conflict (stf : Dict) :
    ∀ (files : List FileDescriptorProto) (d0 : Dict) (f : FileDescriptorProto)
      (e : PyErr), f ∈ files → fileCanonical stf f = .error e →
      ∃ e', defaultPathsGo stf files d0 = .error e' := by
  intro files
  induction files with
  | nil => intro d0 f e hf; simp at hf
  | cons f₀ rest ih =>
    intro d0 f e hf hfe
    simp only [defaultPathsGo]
    cases hc : fileCanonical stf f₀ with
    | error e' => exact ⟨e', rfl⟩
    | ok c =>
      rcases List.mem_cons.mp hf with rfl | hmem
      · rw [hc] at hfe; cases hfe
      · exact ih _ f e hmem hfe

/-- Key presence in the accumulator survives the file loop. -/
theorem defaultPathsGo_presence_mono (stf : Dict) :
    ∀ (files : List FileDescriptorProto) (d0 m : Dict) (k : String),
      defaultPathsGo stf files d0 = .ok m →
      Dict.lookup d0 k ≠ none → Dict.lookup m k ≠ none := by
  intro files
  induction files with
  | nil =>
    intro d0 m k h hk
    simp only [defaultPathsGo] at h
    rw [← Except.ok.inj h]; exact hk
  | cons f₀ rest ih =>
    intro d0 m k h hk
    simp only [defaultPathsGo] at h
    cases hc : fileCanonical stf f₀ with
    | error e => rw [hc] at h; cases h
    | ok c =>
      rw [hc] at h
      exact ih _ m k h
        (Dict.lookup_insert_isSome _ _ _ _ (Dict.lookup_insert_isSome _ _ _ _ hk))

/-- Every file processed by a successful file loop has a successful
canonical path, and both its name and its canonical path end up as keys of
the resulting map. -/
theorem defaultPathsGo_presence (stf : Dict) :
    ∀ (files : List FileDescriptorProto) (d0 m : Dict) (f : FileDescriptorProto),
      defaultPathsGo stf files d0 = .ok m → f ∈ files →
      ∃ c, fileCanonical stf f = .ok c ∧
        Dict.lookup m f.name ≠ none ∧ Dict.lookup m c ≠ none := by
  intro files
  induction files with
  | nil => intro d0 m f _ hf; simp at hf
  | cons f₀ rest ih =>
    intro d0 m f h hf
    simp only [defaultPathsGo] at h
    cases hc : fileCanonical stf f₀ with
    | error e => rw [hc] at h; cases h
    | ok c₀ =>
      rw [hc] at h
      rcases List.mem_cons.mp hf with rfl | hmem
      · refine ⟨c₀, hc, ?_, ?_⟩
        · refine defaultPathsGo_presence_mono stf rest _ m f.name h ?_
          rw [Dict.lookup_insert]
          split <;> simp [Dict.lookup_insert_self]
        · refine defaultPathsGo_presence_mono stf rest _ m c₀ h ?_
          simp [Dict.lookup_insert_self]
      · exact ih _ m f h hmem

/-! ### Lemmas about `_create_symbol_to_file` -/

/-- Shape invariant of the symbol map: every recorded value is the name of
the default-pool file found to declare the key. -/
def SymbolMapShape (pool : List FileDescriptorProto) (d : Dict) : Prop :=
  ∀ k v, Dict.lookup d k = some v →
    ∃ g, Pool.findFileContainingSymbol pool k = some g ∧ v = g.name

theorem symStep_shape (pool : List FileDescriptorProto) (f : FileDescriptorProto)
    (d : Dict) (s : String) (h : SymbolMapShape pool d) :
    SymbolMapShape pool (symStep pool f d s) := by
  unfold symStep
  cases hg : Pool.findFileContainingSymbol pool (_proto_full_name f.package s) with
  | none => simpa [hg] using h
  | some g =>
    simp only [hg]
    intro k v hk
    rw [Dict.lookup_insert] at hk
    by_cases hke : _proto_full_name f.package s = k
    · rw [if_pos hke] at hk
      exact ⟨g, hke ▸ hg, (Option.some.inj hk).symm⟩
    · rw [if_neg hke] at hk
      exact h k v hk

theorem symStep_presence_mono (pool : List FileDescriptorProto)
    (f : FileDescriptorProto) (d : Dict) (s k : String)
    (h : Dict.lookup d k ≠ none) :
    Dict.lookup (symStep pool f d s) k ≠ none := by
  unfold symStep
  cases hg : Pool.findFileContainingSymbol pool (_proto_full_name f.package s) with
  | none => simpa [hg] using h
  | some g =>
    simp only [hg]
    exact Dict.lookup_insert_isSome _ _ _ _ h

theorem foldl_symStep_presence_mono (pool : List FileDescriptorProto)
    (f : FileDescriptorProto) :
    ∀ (l : List String) (d : Dict) (k : String), Dict.lookup d k ≠ none →
      Dict.lookup (l.foldl (symStep pool f) d) k ≠ none := by
  intro l
  induction l with
  | nil => intro d k h; exact h
  | cons s rest ih =>
    intro d k h
    simp only [List.foldl_cons]
    exact ih _ k (symStep_presence_mono pool f d s k h)

theorem symbolToFileForFile_shape (pool : List FileDescriptorProto)
    (f : FileDescriptorProto) (d : Dict) (h : SymbolMapShape pool d) :
    SymbolMapShape pool (symbolToFileForFile pool f d) := by
  unfold symbolToFileForFile
  generalize symbolsOf f = l
  induction l generalizing d with
  | nil => exact h
  | cons s rest ih =>
    simp only [List.foldl_cons]
    exact ih _ (symStep_shape pool f d s h)

theorem create_symbol_to_file_shape (fds : FileDescriptorSet)
    (pool : List FileDescriptorProto) :
    SymbolMapShape pool (_create_symbol_to_file fds pool) := by
  unfold _create_symbol_to_file
  have h0 : SymbolMapShape pool ([] : Dict) := by
    intro k v hk; simp [Dict.lookup] at hk
  generalize fds.file = files
  revert h0
  generalize ([] : Dict) = d0
  revert d0
  induction files with
  | nil => intro d0 h0; exact h0
  | cons f rest ih =>
    intro d0 h0
    simp only [List.foldl_cons]
    exact ih _ (symbolToFileForFile_shape pool f d0 h0)

/-- Presence in the accumulator survives the per-file symbol fold. -/
theorem symbolToFileForFile_presence_mono (pool : List FileDescriptorProto)
    (f : FileDescriptorProto) (d : Dict) (k : String)
    (h : Dict.lookup d k ≠ none) :
    Dict.lookup (symbolToFileForFile pool f d) k ≠ none :=
  foldl_symStep_presence_mono pool f (symbolsOf f) d k h

/-- A symbol of the file that the pool already declares ends up as a key of
the per-file symbol fold. -/
theorem symbolToFileForFile_presence (pool : List FileDescriptorProto)
    (f : FileDescriptorProto) (d : Dict) (s : String) (g : FileDescriptorProto)
    (hs : s ∈ symbolsOf f)
    (hg : Pool.findFileContainingSymbol pool (_proto_full_name f.package s) = some g) :
    Dict.lookup (symbolToFileForFile pool f d) (_proto_full_name f.package s) ≠ none := by
  unfold symbolToFileForFile
  generalize hsym : symbolsOf f = l
  rw [hsym] at hs
  clear hsym
  induction l generalizing d with
  | nil => simp at hs
  | cons s₀ rest ih =>
    simp only [List.foldl_cons]
    rcases List.mem_cons.mp hs with rfl | hmem
    · apply foldl_symStep_presence_mono pool f rest
      simp [symStep, hg, Dict.lookup_insert_self]
    · exact ih _ hmem

/-- Presence in the accumulator survives the whole file fold of
`_create_symbol_to_file`. -/
theorem symbolToFile_fold_presence_mono (pool : List FileDescriptorProto) :
    ∀ (files : List FileDescriptorProto) (d : Dict) (k : String),
      Dict.lookup d k ≠ none →
      Dict.lookup (files.foldl (fun d f => symbolToFileForFile pool f d) d) k ≠ none := by
  intro files
  induction files with
  | nil => intro d k h; exact h
  | cons f rest ih =>
    intro d k h
    simp only [List.foldl_cons]
    exact ih _ k (symbolToFileForFile_presence_mono pool f d k h)

/-- The symbol map records exactly the pool file name for every symbol of
the set that the pool already declares. -/
theorem create_symbol_to_file_hit (fds : FileDescriptorSet)
    (pool : List FileDescriptorProto) (f : FileDescriptorProto) (s : String)
    (g : FileDescriptorProto) (hf : f ∈ fds.file) (hs : s ∈ symbolsOf f)
    (hg : Pool.findFileContainingSymbol pool (_proto_full_name f.package s) = some g) :
    Dict.lookup (_create_symbol_to_file fds pool) (_proto_full_name f.package s)
      = some g.name := by
  have hpres : Dict.lookup (_create_symbol_to_file fds pool)
      (_proto_full_name f.package s) ≠ none := by
    unfold _create_symbol_to_file
    obtain ⟨l₁, l₂, hsplit⟩ := List.append_of_mem hf
    rw [hsplit, List.foldl_append, List.foldl_cons]
    exact symbolToFile_fold_presence_mono pool l₂ _ _
      (symbolToFileForFile_presence pool f _ s g hs hg)
  cases hlook : Dict.lookup (_create_symbol_to_file fds pool)
      (_proto_full_name f.package s) with
  | none => exact absurd hlook hpres
  | some v =>
    obtain ⟨g', hg', hv⟩ := create_symbol_to_file_shape fds pool _ v hlook
    rw [hg] at hg'
    rw [hv, Option.some.inj hg']

/-! ### Lemmas about the path rewriting step -/

theorem rewriteDeps_ok_of_present (ptd : Dict) :
    ∀ (ds : List String), (∀ d ∈ ds, Dict.lookup ptd d ≠ none) →
      ∃ ds', rewriteDeps ptd ds = .ok ds' := by
  intro ds
  induction ds with
  | nil => intro _; exact ⟨[], rfl⟩
  | cons d rest ih =>
    intro h
    simp only [rewriteDeps]
    cases hd : Dict.lookup ptd d with
    | none => exact absurd hd (h d (List.mem_cons_self _ _))
    | some d' =>
      obtain ⟨ds', hds'⟩ := ih (fun x hx => h x (List.mem_cons_of_mem _ hx))
      rw [hds']
      exact ⟨d' :: ds', rfl⟩

theorem rewriteFiles_ok_of_present (ptd : Dict) :
    ∀ (files : List FileDescriptorProto),
      (∀ f ∈ files, Dict.lookup ptd f.name ≠ none ∧
        ∀ d ∈ f.dependency, Dict.lookup ptd d ≠ none) →
      ∃ fs', rewriteFiles ptd files = .ok fs' := by
  intro files
  induction files with
  | nil => intro _; exact ⟨[], rfl⟩
  | cons f rest ih =>
    intro h
    simp only [rewriteFiles]
    cases hn : Dict.lookup ptd f.name with
    | none => exact absurd hn (h f (List.mem_cons_self _ _)).1
    | some newName =>
      obtain ⟨ds', hds'⟩ := rewriteDeps_ok_of_present ptd f.dependency
        (h f (List.mem_cons_self _ _)).2
      rw [hds']
      obtain ⟨fs', hfs'⟩ := ih (fun g hg => h g (List.mem_cons_of_mem _ hg))
      rw [hfs']
      exact ⟨_, rfl⟩

/-- Every string produced by a successful dependency rewrite is a recorded
value of the path map. -/
theorem rewriteDeps_values (ptd : Dict) :
    ∀ (ds ds' : List String), rewriteDeps ptd ds = .ok ds' →
      ∀ d' ∈ ds', ∃ k, Dict.lookup ptd k = some d' := by
  intro ds
  induction ds with
  | nil =>
    intro ds' h d' hd'
    simp only [rewriteDeps] at h
    rw [← Except.ok.inj h] at hd'
    simp at hd'
  | cons d rest ih =>
    intro ds' h d' hd'
    simp only [rewriteDeps] at h
    cases hd : Dict.lookup ptd d with
    | none => rw [hd] at h; cases h
    | some v =>
      rw [hd] at h
      cases hr : rewriteDeps ptd rest with
      | error e => rw [hr] at h; cases h
      | ok rest' =>
        rw [hr] at h
        rw [← Except.ok.inj h] at hd'
        rcases List.mem_cons.mp hd' with rfl | hmem
        · exact ⟨d, hd⟩
        · exact ih rest' hr d' hmem

/-- Every file produced by a successful rewrite has its name and all its
dependency strings among the recorded values of the path map. -/
theorem rewriteFiles_values (ptd : Dict) :
    ∀ (files fs' : List FileDescriptorProto), rewriteFiles ptd files = .ok fs' →
      ∀ f' ∈ fs', (∃ k, Dict.lookup ptd k = some f'.name) ∧
        ∀ d' ∈ f'.dependency, ∃ k, Dict.lookup ptd k = some d' := by
  intro files
  induction files with
  | nil =>
    intro fs' h f' hf'
    simp only [rewriteFiles] at h
    rw [← Except.ok.inj h] at hf'
    simp at hf'
  | cons f rest ih =>
    intro fs' h f' hf'
    simp only [rewriteFiles] at h
    cases hn : Dict.lookup ptd f.name with
    | none => rw [hn] at h; cases h
    | some newName =>
      rw [hn] at h
      cases hd : rewriteDeps ptd f.dependency with
      | error e => rw [hd] at h; cases h
      | ok newDeps =>
        rw [hd] at h
        cases hr : rewriteFiles ptd rest with
        | error e => rw [hr] at h; cases h
        | ok rest' =>
          rw [hr] at h
          rw [← Except.ok.inj h] at hf'
          rcases List.mem_cons.mp hf' with rfl | hmem
          · exact ⟨⟨f.name, hn⟩, fun d' hd' => rewriteDeps_values ptd _ _ hd d' hd'⟩
          · exact ih rest' hr f' hmem

/-- A dependency list each of whose strings the map sends to itself is left
unchanged by the rewrite. -/
theorem rewriteDeps_id (ptd : Dict) :
    ∀ (ds : List String), (∀ d ∈ ds, Dict.lookup ptd d = some d) →
      rewriteDeps ptd ds = .ok ds := by
  intro ds
  induction ds with
  | nil => intro _; rfl
  | cons d rest ih =>
    intro h
    simp only [rewriteDeps]
    rw [h d (List.mem_cons_self _ _), ih (fun x hx => h x (List.mem_cons_of_mem _ hx))]

/-- A file list whose names and dependency strings the map sends to
themselves is left unchanged by the rewrite. -/
theorem rewriteFiles_id (ptd : Dict) :
    ∀ (files : List FileDescriptorProto),
      (∀ f ∈ files, Dict.lookup ptd f.name = some f.name ∧
        ∀ d ∈ f.dependency, Dict.lookup ptd d = some d) →
      rewriteFiles ptd files = .ok files := by
  intro files
  induction files with
  | nil => intro _; rfl
  | cons f rest ih =>
    intro h
    simp only [rewriteFiles]
    rw [(h f (List.mem_cons_self _ _)).1,
      rewriteDeps_id ptd f.dependency (h f (List.mem_cons_self _ _)).2,
      ih (fun g hg => h g (List.mem_cons_of_mem _ hg))]

/-! ### A relational invariance principle for the resolver

Every state transition performed by `import_from_file_descriptor_set` is
either the identity or one registration step (a successful `Pool.add`
together with one `sys.modules` insertion).  Any reflexive-transitive
relation closed under that step therefore relates every input state to the
corresponding output state — also on the error paths, which return the
state reached so far. -/

theorem processDeps_rel (R : St → St → Prop) (hrefl : ∀ s, R s s)
    (htrans : ∀ a b c, R a b → R b c → R a c)
    (imp : String → St → Except PyErr Module × St)
    (himp : ∀ mn s, R s (imp mn s).2) :
    ∀ (ds : List String) (st : St), R st (processDeps imp ds st).2 := by
  intro ds
  induction ds with
  | nil => intro st; exact hrefl st
  | cons d rest ih =>
    intro st
    simp only [processDeps]
    cases h : imp (_to_proto_module d) st with
    | mk r st' =>
      cases r with
      | error e =>
        have h1 := himp (_to_proto_module d) st
        rw [h] at h1
        exact h1
      | ok m =>
        have h1 := himp (_to_proto_module d) st
        rw [h] at h1
        exact htrans _ _ _ h1 (ih st')

theorem import_rel (R : St → St → Prop) (hrefl : ∀ s, R s s)
    (htrans : ∀ a b c, R a b → R b c → R a c)
    (hstep : ∀ (st : St) (fdp : FileDescriptorProto) (pool' : Pool) (mn : String) (md : Module),
        st.pool.add fdp = .ok pool' →
        R st { pool := pool', modules := (mn, md) :: st.modules }) :
    ∀ (fuel : Nat) (mn : String) (fds : FileDescriptorSet)
      (stfOpt ptdOpt : Option Dict) (st : St),
      R st (import_from_file_descriptor_set fuel mn fds stfOpt ptdOpt st).2 := by
  intro fuel
  induction fuel with
  | zero => intro mn fds stfOpt ptdOpt st; exact hrefl st
  | succ fuel ih =>
    intro mn fds stfOpt ptdOpt st
    have hdeps : ∀ (fds' : FileDescriptorSet) (so po : Dict) (ds : List String) (s : St),
        R s (processDeps
          (fun mn' s' => import_from_file_descriptor_set fuel mn' fds' (some so) (some po) s')
          ds s).2 :=
      fun fds' so po ds s => processDeps_rel R hrefl htrans
        (fun mn' s' => import_from_file_descriptor_set fuel mn' fds' (some so) (some po) s')
        (fun mn' s' => ih mn' fds' (some so) (some po) s') ds s
    simp only [import_from_file_descriptor_set]
    generalize (match stfOpt with
      | some d => d
      | none => _create_symbol_to_file fds st.pool.files : Dict) = stfv
    split
    · exact hrefl st
    · split
      · exact hrefl st
      · split
        · exact hrefl st
        · rename_i x1 ptd hptd
          split
          · exact hrefl st
          · rename_i x2 fds2 hfds2
            split
            · exact hrefl st
            · rename_i x3 fdp hfdp
              split
              · rename_i x4 e st' heq
                have hr := hdeps fds2 stfv ptd fdp.dependency st
                rw [heq] at hr
                exact hr
              · rename_i x4 m st' heq
                have hr := hdeps fds2 stfv ptd fdp.dependency st
                rw [heq] at hr
                split
                · exact hr
                · rename_i pool' hadd
                  exact htrans _ _ _ hr (hstep _ _ _ _ _ hadd)

/-! ### State extension: registrations are never removed -/

/-- `s'` extends `s`: every registered pool file and every cached module of
`s` is still present in `s'`. -/
def StExtends (s s' : St) : Prop :=
  (∀ g, g ∈ s.pool.files → g ∈ s'.pool.files) ∧
  (∀ n, lookupModule s.modules n ≠ none → lookupModule s'.modules n ≠ none)

theorem StExtends.refl (s : St) : StExtends s s :=
  ⟨fun _ h => h, fun _ h => h⟩

theorem StExtends.trans {a b c : St} (h₁ : StExtends a b) (h₂ : StExtends b c) :
    StExtends a c :=
  ⟨fun g hg => h₂.1 g (h₁.1 g hg), fun n hn => h₂.2 n (h₁.2 n hn)⟩

theorem Pool.add_mem {p : Pool} {f : FileDescriptorProto} {p' : Pool}
    (h : p.add f = .ok p') : ∀ g, g ∈ p.files → g ∈ p'.files := by
  unfold Pool.add at h
  cases hf : p.files.find? (fun g => g.name = f.name) with
  | some g0 =>
    simp only [hf] at h
    by_cases hgf : g0 = f
    · rw [if_pos hgf] at h
      rw [← Except.ok.inj h]
      exact fun g hg => hg
    · rw [if_neg hgf] at h; cases h
  | none =>
    simp only [hf] at h
    by_cases hdep : f.dependency.all (fun d => p.files.any (fun g => g.name = d)) = true
    · rw [if_pos hdep] at h
      rw [← Except.ok.inj h]
      exact fun g hg => List.mem_append_left _ hg
    · rw [if_neg hdep] at h; cases h

theorem lookupModule_cons_isSome (n mn : String) (md : Module)
    (mods : List (String × Module)) (h : lookupModule mods n ≠ none) :
    lookupModule ((mn, md) :: mods) n ≠ none := by
  simp only [lookupModule]
  split <;> simp_all

/-- One registration step extends the state. -/
theorem StExtends.step (st : St) (fdp : FileDescriptorProto) (pool' : Pool)
    (mn : String) (md : Module) (hadd : st.pool.add fdp = .ok pool') :
    StExtends st { pool := pool', modules := (mn, md) :: st.modules } :=
  ⟨fun g hg => Pool.add_mem hadd g hg,
   fun n hn => lookupModule_cons_isSome n mn md st.modules hn⟩

/-- The resolver only ever extends the live state — also on error paths. -/
theorem import_extends (fuel : Nat) (mn : String) (fds : FileDescriptorSet)
    (stfOpt ptdOpt : Option Dict) (st : St) :
    StExtends st (import_from_file_descriptor_set fuel mn fds stfOpt ptdOpt st).2 :=
  import_rel StExtends StExtends.refl (fun _ _ _ => StExtends.trans)
    StExtends.step fuel mn fds stfOpt ptdOpt st

/-- The dependency loop only ever extends the live state. -/
theorem processDeps_extends (fuel : Nat) (fds : FileDescriptorSet)
    (stf ptd : Dict) (ds : List String) (st : St) :
    StExtends st (processDeps (importOne fuel fds stf ptd) ds st).2 :=
  processDeps_rel StExtends StExtends.refl (fun _ _ _ => StExtends.trans)
    (importOne fuel fds stf ptd)
    (fun mn s => import_extends fuel mn fds (some stf) (some ptd) s)
    ds st

/-! ### Dependency-before-dependent ordering -/

/-- `orderedClosedAux seen files = true` iff every file of `files` has each
of its dependencies among `seen` or among the names of the files preceding
it in the list. -/
def orderedClosedAux (seen : List String) : List FileDescriptorProto → Bool
  | [] => true
  | f :: rest =>
    f.dependency.all (fun d => decide (d ∈ seen)) && orderedClosedAux (f.name :: seen) rest

/-- Prefix closure of a pool, in registration order: every registered file
was registered after all of its dependencies. -/
def orderedClosed (files : List FileDescriptorProto) : Bool :=
  orderedClosedAux [] files

theorem orderedClosedAux_append (f : FileDescriptorProto) :
    ∀ (xs : List FileDescriptorProto) (seen : List String),
      orderedClosedAux seen (xs ++ [f]) = true ↔
        (orderedClosedAux seen xs = true ∧
          ∀ d ∈ f.dependency, d ∈ seen ∨ d ∈ xs.map (fun g => g.name)) := by
  intro xs
  induction xs with
  | nil =>
    intro seen
    simp [orderedClosedAux]
  | cons x rest ih =>
    intro seen
    simp only [List.cons_append, List.append_eq, orderedClosedAux, Bool.and_eq_true]
    rw [ih (x.name :: seen)]
    constructor
    · rintro ⟨h1, h2, h3⟩
      refine ⟨⟨h1, h2⟩, fun d hd => ?_⟩
      rcases h3 d hd with hmem | hmem
      · rcases List.mem_cons.mp hmem with rfl | hmem'
        · exact Or.inr (by simp)
        · exact Or.inl hmem'
      · exact Or.inr (by simp [hmem])
    · rintro ⟨⟨h1, h2⟩, h3⟩
      refine ⟨h1, h2, fun d hd => ?_⟩
      rcases h3 d hd with hmem | hmem
      · exact Or.inl (List.mem_cons_of_mem _ hmem)
      · rcases List.mem_map.mp hmem with ⟨g, hg, rfl⟩
        rcases List.mem_cons.mp hg with rfl | hg'
        · exact Or.inl (List.mem_cons_self _ _)
        · exact Or.inr (List.mem_map_of_mem _ hg')

/-- A successful `Pool.add` preserves prefix closure: the new file is only
appended after its dependencies are already registered. -/
theorem Pool.add_orderedClosed {p : Pool} {f : FileDescriptorProto} {p' : Pool}
    (hadd : p.add f = .ok p') (h : orderedClosed p.files = true) :
    orderedClosed p'.files = true := by
  unfold Pool.add at hadd
  cases hf : p.files.find? (fun g => g.name = f.name) with
  | some g0 =>
    simp only [hf] at hadd
    by_cases hgf : g0 = f
    · rw [if_pos hgf] at hadd
      rw [← Except.ok.inj hadd]
      exact h
    · rw [if_neg hgf] at hadd; cases hadd
  | none =>
    simp only [hf] at hadd
    by_cases hdep : f.dependency.all (fun d => p.files.any (fun g => g.name = d)) = true
    · rw [if_pos hdep] at hadd
      rw [← Except.ok.inj hadd]
      unfold orderedClosed
      rw [orderedClosedAux_append]
      refine ⟨h, fun d hd => Or.inr ?_⟩
      have := List.all_eq_true.mp hdep d hd
      obtain ⟨g, hg, hgname⟩ := List.any_eq_true.mp this
      exact List.mem_map.mpr ⟨g, hg, of_decide_eq_true hgname⟩
    · rw [if_neg hdep] at hadd; cases hadd

/-- Prefix closure of the pool is an invariant of the resolver. -/
theorem import_orderedClosed (fuel : Nat) (mn : String) (fds : FileDescriptorSet)
    (stfOpt ptdOpt : Option Dict) (st : St)
    (h : orderedClosed st.pool.files = true) :
    orderedClosed (import_from_file_descriptor_set fuel mn fds stfOpt ptdOpt st).2.pool.files = true :=
  import_rel (fun s s' => orderedClosed s.pool.files = true →
      orderedClosed s'.pool.files = true)
    (fun _ h => h) (fun _ _ _ h₁ h₂ h => h₂ (h₁ h))
    (fun _ _ _ _ _ hadd h => Pool.add_orderedClosed hadd h)
    fuel mn fds stfOpt ptdOpt st h

/-! ### The dependency loop distributes over append -/

theorem processDeps_append (imp : String → St → Except PyErr Module × St) :
    ∀ (d₁ d₂ : List String) (st : St),
      processDeps imp (d₁ ++ d₂) st =
        match processDeps imp d₁ st with
        | (.ok _, st') => processDeps imp d₂ st'
        | (.error e, st') => (.error e, st') := by
  intro d₁
  induction d₁ with
  | nil => intro d₂ st; rfl
  | cons d rest ih =>
    intro d₂ st
    simp only [List.cons_append, processDeps]
    cases h : imp (_to_proto_module d) st with
    | mk r st' =>
      cases r with
      | error e => rfl
      | ok m => exact ih d₂ st'

/-! ### A successful import leaves the module in the cache -/

theorem import_ok_cached (fuel : Nat) (mn : String) (fds : FileDescriptorSet)
    (stfOpt ptdOpt : Option Dict) (st st' : St) (md : Module)
    (h : import_from_file_descriptor_set fuel mn fds stfOpt ptdOpt st = (.ok md, st')) :
    pyEndsWith mn "_pb2" = true ∧ lookupModule st'.modules mn = some md := by
  cases fuel with
  | zero =>
    exact absurd (congrArg Prod.fst h) (by simp [import_from_file_descriptor_set])
  | succ fuel =>
    simp only [import_from_file_descriptor_set] at h
    split at h
    · exact absurd (congrArg Prod.fst h) (by simp)
    · rename_i hend
      have hend' : pyEndsWith mn "_pb2" = true := by
        cases hb : pyEndsWith mn "_pb2" with
        | false => exact absurd hb hend
        | true => rfl
      refine ⟨hend', ?_⟩
      split at h
      · rename_i m0 hm0
        obtain ⟨h1, h2⟩ := Prod.mk.inj h
        rw [← h2, hm0, Except.ok.inj h1]
      · split at h
        · exact absurd (congrArg Prod.fst h) (by simp)
        · split at h
          · exact absurd (congrArg Prod.fst h) (by simp)
          · split at h
            · exact absurd (congrArg Prod.fst h) (by simp)
            · split at h
              · exact absurd (congrArg Prod.fst h) (by simp)
              · split at h
                · exact absurd (congrArg Prod.fst h) (by simp)
                · obtain ⟨h1, h2⟩ := Prod.mk.inj h
                  rw [← h2, ← Except.ok.inj h1]
                  simp [lookupModule]

/-! ### Concrete scenario data -/

/-- A bundle file declaring only top-level messages without fields. -/
def mkMsgFile (n : String) (ms : List String) (deps : List String) :
    FileDescriptorProto :=
  { name := n, package := "",
    message_type := ms.map (fun s => { name := s, field := [] }),
    enum_type := [], service := [], extension := [], dependency := deps }

/-- Scenario A: the single bundle file `a/b.proto`, package `pkg`, declaring
the top-level message `Foo` with the single int32 field `x`. -/
def fileA : FileDescriptorProto :=
  { name := "a/b.proto", package := "pkg",
    message_type := [{ name := "Foo", field := [{ name := "x", number := 1 }] }],
    enum_type := [], service := [], extension := [], dependency := [] }

def fdsA : FileDescriptorSet := { file := [fileA] }

/-- The empty initial state: empty default pool, empty module cache. -/
def st0 : St := { pool := { files := [] }, modules := [] }

def mdA : Module := { name := "a.b_pb2", descriptorFile := fileA }

/-- The state after loading Scenario A. -/
def stA : St := { pool := { files := [fileA] }, modules := [("a.b_pb2", mdA)] }

def fooDesc : MsgDescriptor :=
  { full_name := "pkg.Foo", fields := [{ name := "x", number := 1 }] }

/-- `Foo` constructed with `x = 5`. -/
def foo5 : MsgValue := (MsgValue.default fooDesc).setField "x" 5

/-- A file declaring only the top-level enum `pkg.E`. -/
def fileE : FileDescriptorProto :=
  { name := "e.proto", package := "pkg", message_type := [],
    enum_type := [{ name := "E" }], service := [], extension := [],
    dependency := [] }

def fdsE : FileDescriptorSet := { file := [fileE] }

/-- An envelope whose type identifier names the enum `pkg.E`. -/
def anyE : AnyMsg := { type_url := "type.googleapis.com/pkg.E", value := [] }

/-! ### C7 -/

/-- Claim C7 (encode contract): encoding the "no value" sentinel returns the
distinct "nothing to encode" result `none` (and a message input can never
produce that result, so it is never conflated with a zero-length byte
string); encoding an instance whose declared full type name differs from
the expected one fails with the type-mismatch error; encoding a matching
instance returns the serialized `Any` envelope bytes. -/
theorem c7_encode_contract (v : MsgValue) (expected : String) :
    serialize_return_value_message none expected = .ok none
    ∧ (MsgValue.typeName v ≠ expected →
        serialize_return_value_message (some v) expected
          = .error (.typeMismatch (MsgValue.typeName v) expected))
    ∧ (MsgValue.typeName v = expected →
        serialize_return_value_message (some v) expected
          = .ok (some (serializeAny (anyPack v))))
    ∧ ∀ r, serialize_return_value_message (some v) expected = .ok r →
        r ≠ none := by
  refine ⟨rfl, ?_, ?_, ?_⟩
  · intro h
    simp [serialize_return_value_message, h]
  · intro h
    simp [serialize_return_value_message, h]
  · intro r hr
    by_cases h : MsgValue.typeName v = expected
    · simp only [serialize_return_value_message] at hr
      rw [if_neg (show ¬ MsgValue.typeName v ≠ expected from fun hc => hc h)] at hr
      rw [← Except.ok.inj hr]
      simp
    · simp [serialize_return_value_message, h] at hr

/-- Witness for C7 at a concrete mismatching input. -/
theorem c7_encode_contract_witness :
    serialize_return_value_message (some foo5) "pkg.Bar"
      = .error (.typeMismatch "pkg.Foo" "pkg.Bar") :=
  (c7_encode_contract foo5 "pkg.Bar").2.1 (by decide)

/-! ### C9 -/

/-- Claim C9 (Scenario A round trip): loading the module name derived from
the single-file bundle `a/b.proto` (package `pkg`, message `Foo` with int32
field `x`) succeeds and yields a type with field `x`; constructing
`Foo{x:5}`, encoding it to an envelope, and decoding that envelope against
the same bundle yields a value equal to `Foo{x:5}`. -/
theorem c9_scenario_a_round_trip :
    import_from_file_descriptor_set 5 "a.b_pb2" fdsA none none st0 = (.ok mdA, stA)
    ∧ Module.getClass mdA "Foo" = some fooDesc
    ∧ fooDesc.fields = [{ name := "x", number := 1 }]
    ∧ MsgValue.getField foo5 "x" = 5
    ∧ serialize_return_value_message (some foo5) "pkg.Foo"
        = .ok (some (serializeAny (anyPack foo5)))
    ∧ unpack_params_message 5 (anyPack foo5) fdsA stA = (.ok foo5, stA) := by
  decide

/-! ### C8 (corrected) -/

/-- Counterexample to C8 as stated: `pkg.E` is declared as a top-level
symbol (an enum) of a bundle file, yet the bundle scan of
`_find_module_containing_message` fails with the symbol-not-found error,
because the source scans only `file.message_type`.  Decoding an envelope
naming `pkg.E` against that bundle fails accordingly. -/
theorem c8_counterexample :
    ("pkg.E" ∈ fullSymbolsOf fileE)
    ∧ _find_module_containing_message "pkg.E" fdsE
        = .error (.symbolNotFound "pkg.E")
    ∧ unpack_params_message 3 anyE fdsE st0
        = (.error (.symbolNotFound "pkg.E"), st0) := by
  decide

/-- Claim C8 as amended: with "top-level symbol" tightened to "top-level
message".  If the full name extracted from the envelope's type identifier
is not declared as a top-level message in any file of the bundle, decoding
fails with the symbol-not-found error and leaves the state untouched; if
some file declares it as a top-level message, the bundle scan succeeds and
returns the module of the first such file. -/
theorem c8_decode_symbol_lookup (fuel : Nat) (a : AnyMsg)
    (fds : FileDescriptorSet) (st : St) :
    ((∀ f ∈ fds.file, ∀ mt ∈ f.message_type,
        _proto_full_name f.package mt.name ≠ pyLastSegment a.type_url '/') →
      unpack_params_message fuel a fds st
        = (.error (.symbolNotFound (pyLastSegment a.type_url '/')), st))
    ∧ (∀ f, fds.file.find? (fun g => g.message_type.any
          (fun mt => _proto_full_name g.package mt.name
            = pyLastSegment a.type_url '/')) = some f →
        _find_module_containing_message (pyLastSegment a.type_url '/') fds
          = .ok (_to_proto_module f.name)) := by
  constructor
  · intro h
    have hfind : fds.file.find? (fun f => f.message_type.any
        (fun mt => _proto_full_name f.package mt.name
          = pyLastSegment a.type_url '/')) = none := by
      rw [List.find?_eq_none]
      intro f hf
      simp only [List.any_eq_true, decide_eq_true_eq]
      rintro ⟨mt, hmt, hname⟩
      exact h f hf mt hmt hname
    simp [unpack_params_message, _find_module_containing_message, hfind]
  · intro f hfind
    simp [_find_module_containing_message, hfind]

/-- Witness for the amended C8 at a concrete input (the enum-only bundle,
whose sole top-level message list is empty). -/
theorem c8_decode_symbol_lookup_witness :
    unpack_params_message 3 anyE fdsE st0
      = (.error (.symbolNotFound (pyLastSegment anyE.type_url '/')), st0) :=
  (c8_decode_symbol_lookup 3 anyE fdsE st0).1 (by decide)

/-! ### C4 -/

/-- Claim C4 (first-hit binding in declaration order): provided every path
recorded in the symbol index is non-falsy (pool file names are real paths),
the canonical path the Path Rewriter computes for a file is the recorded
path of the first of the file's top-level symbols (in declaration order,
messages then enums then services then extensions) found in the symbol
index; a file with zero hits keeps its own declared path. -/
theorem c4_first_hit_binding (stf : Dict) (f : FileDescriptorProto)
    (hvals : ∀ k v, Dict.lookup stf k = some v → v ≠ "") :
    (∀ c, fileCanonical stf f = .ok c → c = (firstHit stf f).getD f.name)
    ∧ (firstHit stf f = none → fileCanonical stf f = .ok f.name) := by
  constructor
  · intro c hc
    simp only [fileCanonical] at hc
    cases hl : defaultPathLoop stf f.name f.package "" (symbolsOf f) with
    | error e => rw [hl] at hc; cases hc
    | ok d =>
      rw [hl] at hc
      have hd := defaultPathLoop_ok_firstHit stf f.name f.package hvals
        (symbolsOf f) d hl
      have hc' : (if d = "" then f.name else d) = c := Except.ok.inj hc
      cases hfh : firstHit stf f with
      | none =>
        unfold firstHit at hfh
        rw [hfh] at hd
        simp only [Option.getD_none] at hd
        rw [← hc', hd]
        simp
      | some p =>
        unfold firstHit at hfh
        rw [hfh] at hd
        simp only [Option.getD_some] at hd
        obtain ⟨s, hs, hlook⟩ := List.exists_of_findSome?_eq_some hfh
        have hp : p ≠ "" := hvals _ _ hlook
        rw [← hc', hd]
        simp [hp]
  · intro hfh
    have hnone : ∀ s ∈ symbolsOf f,
        Dict.lookup stf (_proto_full_name f.package s) = none := by
      unfold firstHit at hfh
      intro s hs
      exact List.findSome?_eq_none_iff.mp hfh s hs
    have hloop := defaultPathLoop_ok_of_no_hits stf f.name f.package
      (symbolsOf f) "" hnone
    simp [fileCanonical, hloop]

/-- Witness for C4 at a concrete input with one hit. -/
theorem c4_first_hit_binding_witness :
    "p1.proto" = (firstHit [("M1", "p1.proto")] (mkMsgFile "f.proto" ["M1", "M2"] [])).getD
      (mkMsgFile "f.proto" ["M1", "M2"] []).name := by
  have hvals : ∀ k v, Dict.lookup [("M1", "p1.proto")] k = some v → v ≠ "" := by
    intro k v h
    simp only [Dict.lookup] at h
    split at h
    · rw [← Option.some.inj h]; decide
    · exact Option.noConfusion h
  exact (c4_first_hit_binding [("M1", "p1.proto")]
    (mkMsgFile "f.proto" ["M1", "M2"] []) hvals).1 "p1.proto" (by decide)

/-! ### C2 -/

/-- Number of registrations of the file named `n` in the pool (the
parse/registration-count probe of the specification). -/
def registrationCount (st : St) (n : String) : Nat :=
  (st.pool.files.filter (fun f => f.name = n)).length

/-- Claim C2 (idempotence of resolution): if importing module `m` against
bundle `fds` (with freshly computed maps) succeeds with module `md` in state
`st₁`, then a second call with the same name and bundle succeeds, returns
the identical cached module, and leaves the state — the Live Registry and
the module cache — completely unchanged; in particular the registration
count of `m`'s file stays what it was after the first call. -/
theorem c2_resolution_idempotent (fuel₁ fuel₂ : Nat) (m : String)
    (fds : FileDescriptorSet) (st st₁ : St) (md : Module)
    (h : import_from_file_descriptor_set fuel₁ m fds none none st = (.ok md, st₁)) :
    import_from_file_descriptor_set (fuel₂ + 1) m fds none none st₁ = (.ok md, st₁)
    ∧ registrationCount
        (import_from_file_descriptor_set (fuel₂ + 1) m fds none none st₁).2
        (_to_proto_filename m)
      = registrationCount st₁ (_to_proto_filename m) := by
  obtain ⟨hend, hc⟩ := import_ok_cached fuel₁ m fds none none st st₁ md h
  have hrun : import_from_file_descriptor_set (fuel₂ + 1) m fds none none st₁
      = (.ok md, st₁) := by
    simp [import_from_file_descriptor_set, hend, hc]
  exact ⟨hrun, by rw [hrun]⟩

/-- Witness for C2: the second load of Scenario A returns the cached module
and the untouched state. -/
theorem c2_resolution_idempotent_witness :
    import_from_file_descriptor_set 4 "a.b_pb2" fdsA none none stA = (.ok mdA, stA) :=
  (c2_resolution_idempotent 5 3 "a.b_pb2" fdsA st0 stA mdA (by decide)).1

/-! ### C6 -/

/-- Scenario for partial failure: a bundle holding only `b.proto`; the
dependency list `["b.proto", "c.proto"]` fails at `c.proto`. -/
def fileB : FileDescriptorProto := mkMsgFile "b.proto" ["B"] []

def fdsB : FileDescriptorSet := { file := [fileB] }

def ptdB : Dict := [("b.proto", "b.proto")]

def mdB : Module := { name := "b_pb2", descriptorFile := fileB }

/-- The state after the dependency `b.proto` has been registered. -/
def stB : St := { pool := { files := [fileB] }, modules := [("b_pb2", mdB)] }

/-- Claim C6 (partial-failure retention): when the dependency loop of a load
request fails on a later dependency after an earlier prefix of the
dependency list succeeded, every pool file and every cached module
registered by that successful prefix is still registered in the state the
failure leaves behind — nothing is rolled back.  (`processDeps` is the
dependency loop of `import_from_file_descriptor_set`, and `importOne` the
per-dependency import it performs.) -/
theorem c6_partial_failure_retained (fuel : Nat) (fds : FileDescriptorSet)
    (stf ptd : Dict) (d₁ d₂ : List String) (st st₁ st' : St) (e : PyErr)
    (hok : processDeps (importOne fuel fds stf ptd) d₁ st = (.ok (), st₁))
    (herr : processDeps (importOne fuel fds stf ptd) (d₁ ++ d₂) st = (.error e, st')) :
    (∀ g, g ∈ st₁.pool.files → g ∈ st'.pool.files)
    ∧ (∀ n, lookupModule st₁.modules n ≠ none → lookupModule st'.modules n ≠ none) := by
  simp only [processDeps_append, hok] at herr
  have hext := processDeps_extends fuel fds stf ptd d₂ st₁
  rw [herr] at hext
  exact ⟨hext.1, hext.2⟩

/-- Witness for C6: after `["b.proto"]` succeeds and `["b.proto",
"c.proto"]` fails on the absent `c.proto`, the registered `b.proto` is
retained in the failure state. -/
theorem c6_partial_failure_retained_witness : fileB ∈ stB.pool.files :=
  (c6_partial_failure_retained 2 fdsB [] ptdB ["b.proto"] ["c.proto"]
    st0 stB stB (.fileNotFound "c.proto") (by decide) (by decide)).1
    fileB (by decide)

/-! ### C3 -/

/-- Transitive dependency over the dependency edges declared by a list of
registered files: `DependsOn files a d` means the file registered under
name `a` reaches path `d` through one or more dependency edges. -/
inductive DependsOn (files : List FileDescriptorProto) : String → String → Prop where
  | direct (f : FileDescriptorProto) (d : String) (hf : f ∈ files)
      (hd : d ∈ f.dependency) : DependsOn files f.name d
  | step (a b c : String) (h₁ : DependsOn files a b) (h₂ : DependsOn files b c) :
      DependsOn files a c

/-- Prefix closure restricts to every prefix. -/
theorem orderedClosedAux_take :
    ∀ (files : List FileDescriptorProto) (seen : List String) (n : Nat),
      orderedClosedAux seen files = true →
      orderedClosedAux seen (files.take n) = true := by
  intro files
  induction files with
  | nil => intro seen n _; simp [orderedClosedAux]
  | cons x rest ih =>
    intro seen n h
    cases n with
    | zero => rfl
    | succ n =>
      simp only [List.take_succ_cons, orderedClosedAux, Bool.and_eq_true] at h ⊢
      exact ⟨h.1, ih (x.name :: seen) n h.2⟩

/-- A prefix-closed list is dependency-closed: every declared dependency of
a member is either among `seen` or the name of a member. -/
theorem depClosed_of_orderedClosedAux :
    ∀ (files : List FileDescriptorProto) (seen : List String),
      orderedClosedAux seen files = true →
      ∀ f ∈ files, ∀ d ∈ f.dependency,
        d ∈ seen ∨ d ∈ files.map (fun g => g.name) := by
  intro files
  induction files with
  | nil => intro seen _ f hf; simp at hf
  | cons x rest ih =>
    intro seen h f hf d hd
    simp only [orderedClosedAux, Bool.and_eq_true] at h
    rcases List.mem_cons.mp hf with rfl | hmem
    · have := List.all_eq_true.mp h.1 d hd
      exact Or.inl (of_decide_eq_true this)
    · rcases ih (x.name :: seen) h.2 f hmem d hd with hseen | hmap
      · rcases List.mem_cons.mp hseen with rfl | hseen'
        · exact Or.inr (by simp)
        · exact Or.inl hseen'
      · obtain ⟨g, hg, hgn⟩ := List.mem_map.mp hmap
        exact Or.inr (List.mem_map.mpr ⟨g, List.mem_cons_of_mem _ hg, hgn⟩)

/-- In a dependency-closed file list, transitive dependencies of members
stay among the member names. -/
theorem dependsOn_closed (files : List FileDescriptorProto)
    (hclosed : ∀ f ∈ files, ∀ d ∈ f.dependency, d ∈ files.map (fun g => g.name)) :
    ∀ a d, DependsOn files a d → d ∈ files.map (fun g => g.name) := by
  intro a d h
  induction h with
  | direct f d hf hd => exact hclosed f hf d hd
  | step a b c h₁ h₂ ih₁ ih₂ => exact ih₂

/-- Scenario B: `main.proto` depends on `dep.proto`, both in the bundle. -/
def fileDep : FileDescriptorProto := mkMsgFile "dep.proto" ["Base"] []

def fileMain : FileDescriptorProto := mkMsgFile "main.proto" ["Main"] ["dep.proto"]

def fdsD : FileDescriptorSet := { file := [fileMain, fileDep] }

/-- Claim C3 (dependency-before-dependent ordering): starting from a
registry whose registration order respects dependencies (every registered
file was added after all of its dependencies — trivially true of the empty
registry), any load preserves that property.  Consequently, for every
moment during the load — i.e. for every prefix of the final registration
order, since the registry is append-only (`import_extends`) — each
registered file's transitive dependencies are already registered: a file is
never synthesized while one of its transitive dependencies is absent. -/
theorem c3_dependency_ordering (fuel : Nat) (mn : String)
    (fds : FileDescriptorSet) (stfOpt ptdOpt : Option Dict) (st : St)
    (h : orderedClosed st.pool.files = true) :
    orderedClosed
      (import_from_file_descriptor_set fuel mn fds stfOpt ptdOpt st).2.pool.files = true
    ∧ ∀ (n : Nat) (a d : String),
        DependsOn ((import_from_file_descriptor_set fuel mn fds stfOpt ptdOpt st).2.pool.files.take n) a d →
        d ∈ ((import_from_file_descriptor_set fuel mn fds stfOpt ptdOpt st).2.pool.files.take n).map
          (fun g => g.name) := by
  have h1 := import_orderedClosed fuel mn fds stfOpt ptdOpt st h
  refine ⟨h1, fun n a d hdep => ?_⟩
  have h2 := orderedClosedAux_take
    (import_from_file_descriptor_set fuel mn fds stfOpt ptdOpt st).2.pool.files [] n h1
  have h3 := depClosed_of_orderedClosedAux _ [] h2
  refine dependsOn_closed _ (fun f hf d' hd' => ?_) a d hdep
  rcases h3 f hf d' hd' with hseen | hmap
  · simp at hseen
  · exact hmap

/-- Witness for C3: loading `main_pb2` from the two-file Scenario B bundle
out of the empty state leaves a registry in dependency-respecting order
(`dep.proto` before `main.proto`). -/
theorem c3_dependency_ordering_witness :
    orderedClosed
      (import_from_file_descriptor_set 5 "main_pb2" fdsD none none st0).2.pool.files = true :=
  (c3_dependency_ordering 5 "main_pb2" fdsD none none st0 (by decide)).1

/-! ### C5 (corrected) -/

/-- The bundle invariant as the specification words it, with the rewrite
read as total (a path the map does not know is left unchanged): every
dependency path of every bundle file resolves, after rewriting, either to
(the rewritten identity of) another file in the same bundle or to a file
already present in the Live Registry. -/
def specDepsResolve (fds : FileDescriptorSet) (pool : List FileDescriptorProto)
    (ptd : Dict) : Bool :=
  fds.file.all fun f => f.dependency.all fun d =>
    let d' := (Dict.lookup ptd d).getD d
    fds.file.any (fun g => (Dict.lookup ptd g.name).getD g.name = d') ||
      pool.any (fun g => g.name = d')

/-- The counterexample bundle for C5: `a.proto` depends on `t.proto`, which
lives in the default pool but not in the bundle and shares no symbol with
it. -/
def poolY : List FileDescriptorProto := [mkMsgFile "t.proto" ["T"] []]

def fdsY : FileDescriptorSet := { file := [mkMsgFile "a.proto" ["A"] ["t.proto"]] }

def ptdY : Dict := [("a.proto", "a.proto")]

/-- Counterexample to C5 as stated: the bundle `fdsY` satisfies the
specification's invariant — its only dependency, `t.proto`, resolves (the
map does not touch it) to a file present in the Live Registry — and yet
`_create_compatible_file_descriptor_set` fails with the uncaught `KeyError`
on `t.proto`, because the unguarded `path_to_default_path[dep]` lookup only
knows bundle file names and their canonical paths. -/
theorem c5_counterexample :
    _create_default_paths fdsY (_create_symbol_to_file fdsY poolY) = .ok ptdY
    ∧ specDepsResolve fdsY poolY ptdY = true
    ∧ _create_compatible_file_descriptor_set fdsY ptdY
        = .error (.keyError "t.proto") := by
  decide

/-- Claim C5 as amended: the rewrite is total when every dependency path of
every bundle file is itself a bundle file's name or the canonical path
computed for some bundle file (rather than merely resolving to a
live-registry file).  Then every bundle file name is a key of the
PathRewriteMap and the path-rewriting step runs to completion. -/
theorem c5_rewrite_totality (fds : FileDescriptorSet) (stf ptd : Dict)
    (hm : _create_default_paths fds stf = .ok ptd)
    (hdeps : ∀ f ∈ fds.file, ∀ d ∈ f.dependency,
      (∃ g, g ∈ fds.file ∧ g.name = d) ∨
      (∃ g, g ∈ fds.file ∧ fileCanonical stf g = .ok d)) :
    (∀ f ∈ fds.file, Dict.lookup ptd f.name ≠ none)
    ∧ ∃ fds', _create_compatible_file_descriptor_set fds ptd = .ok fds' := by
  have hpres : ∀ f ∈ fds.file, ∃ c, fileCanonical stf f = .ok c ∧
      Dict.lookup ptd f.name ≠ none ∧ Dict.lookup ptd c ≠ none :=
    fun f hf => defaultPathsGo_presence stf fds.file [] ptd f hm hf
  constructor
  · intro f hf
    obtain ⟨c, _, hn, _⟩ := hpres f hf
    exact hn
  · have hall : ∀ f ∈ fds.file, Dict.lookup ptd f.name ≠ none ∧
        ∀ d ∈ f.dependency, Dict.lookup ptd d ≠ none := by
      intro f hf
      obtain ⟨c, hcanon, hn, hcp⟩ := hpres f hf
      refine ⟨hn, fun d hd => ?_⟩
      rcases hdeps f hf d hd with ⟨g, hg, rfl⟩ | ⟨g, hg, hgc⟩
      · obtain ⟨c', _, hn', _⟩ := hpres g hg
        exact hn'
      · obtain ⟨c', hcanon', _, hcp'⟩ := hpres g hg
        have hcd : c' = d := by
          rw [hcanon'] at hgc
          exact Except.ok.inj hgc
        rw [← hcd]
        exact hcp'
    obtain ⟨fs', hfs'⟩ := rewriteFiles_ok_of_present ptd fds.file hall
    exact ⟨⟨fs'⟩, by simp [_create_compatible_file_descriptor_set, hfs']⟩

def ptdD : Dict := [("main.proto", "main.proto"), ("dep.proto", "dep.proto")]

/-- Witness for the amended C5: the Scenario B bundle, whose dependency
`dep.proto` is a bundle file, rewrites to completion. -/
theorem c5_rewrite_totality_witness :
    ∃ fds', _create_compatible_file_descriptor_set fdsD ptdD = .ok fds' :=
  (c5_rewrite_totality fdsD [] ptdD (by decide) (by decide)).2

/-! ### C10 (corrected) -/

/-- The counterexample bundle for C10: the Live Registry holds `S1` in
`b.proto` and `S2` in `c.proto`; the bundle's `a.proto` declares `S1`
(canonical path `b.proto`) and a *different* bundle file also named
`b.proto` declares `S2` (canonical path `c.proto`), so the later file
overwrites the self-mapping of the canonical target `b.proto`. -/
def poolX : List FileDescriptorProto :=
  [mkMsgFile "b.proto" ["S1"] [], mkMsgFile "c.proto" ["S2"] []]

def fdsX : FileDescriptorSet :=
  { file := [mkMsgFile "a.proto" ["S1"] [], mkMsgFile "b.proto" ["S2"] []] }

def ptdX : Dict :=
  [("a.proto", "b.proto"), ("b.proto", "c.proto"), ("c.proto", "c.proto")]

/-- Counterexample to C10 as stated: the PathRewriteMap of `fdsX` maps
`a.proto` to the canonical target `b.proto` but maps `b.proto` onward to
`c.proto`, so the map is not idempotent (`map[map[a.proto]] ≠
map[a.proto]`), and applying the rewrite to the already-rewritten bundle
changes it again instead of being a no-op. -/
theorem c10_counterexample :
    _create_default_paths fdsX (_create_symbol_to_file fdsX poolX) = .ok ptdX
    ∧ Dict.lookup ptdX "a.proto" = some "b.proto"
    ∧ Dict.lookup ptdX ((Dict.lookup ptdX "a.proto").getD "")
        ≠ Dict.lookup ptdX "a.proto"
    ∧ ∃ fds1, _create_compatible_file_descriptor_set fdsX ptdX = .ok fds1
        ∧ _create_compatible_file_descriptor_set fds1 ptdX ≠ .ok fds1 := by
  refine ⟨by decide, by decide, by decide, ⟨⟨[mkMsgFile "b.proto" ["S1"] [],
    mkMsgFile "c.proto" ["S2"] []]⟩, by decide, by decide⟩⟩

/-- No bundle file's name collides with a different canonical target: for
all bundle files `f` and `g`, if `g`'s own name equals `f`'s canonical
path, then `g`'s canonical path is that same path. -/
def noAliasCollision (stf : Dict) (fds : FileDescriptorSet) : Bool :=
  fds.file.all fun f => fds.file.all fun g =>
    match fileCanonical stf f with
    | .ok cf => if g.name = cf then decide (fileCanonical stf g = .ok cf) else true
    | .error _ => true

theorem noAliasCollision_spec (stf : Dict) (fds : FileDescriptorSet)
    (h : noAliasCollision stf fds = true) :
    ∀ f g, f ∈ fds.file → g ∈ fds.file → ∀ cf,
      fileCanonical stf f = .ok cf → g.name = cf →
      fileCanonical stf g = .ok cf := by
  intro f g hf hg cf hcf hname
  have h1 := List.all_eq_true.mp h f hf
  have h2 := List.all_eq_true.mp h1 g hg
  simp only [hcf] at h2
  rw [if_pos hname] at h2
  exact of_decide_eq_true h2

/-- Shape of the path map built by the file loop: every binding's value is
the canonical path of some processed file, and its key is that file's name
or that canonical path itself. -/
theorem defaultPathsGo_shape (stf : Dict) (allf : List FileDescriptorProto) :
    ∀ (files : List FileDescriptorProto) (d0 m : Dict),
      (∀ f ∈ files, f ∈ allf) →
      (∀ k v, Dict.lookup d0 k = some v → ∃ f c, f ∈ allf ∧
        fileCanonical stf f = .ok c ∧ v = c ∧ (k = f.name ∨ k = c)) →
      defaultPathsGo stf files d0 = .ok m →
      ∀ k v, Dict.lookup m k = some v → ∃ f c, f ∈ allf ∧
        fileCanonical stf f = .ok c ∧ v = c ∧ (k = f.name ∨ k = c) := by
  intro files
  induction files with
  | nil =>
    intro d0 m _ h0 hgo
    simp only [defaultPathsGo] at hgo
    rw [← Except.ok.inj hgo]
    exact h0
  | cons f₀ rest ih =>
    intro d0 m hsub h0 hgo
    simp only [defaultPathsGo] at hgo
    cases hc : fileCanonical stf f₀ with
    | error e => rw [hc] at hgo; cases hgo
    | ok c₀ =>
      rw [hc] at hgo
      refine ih _ m (fun f hf => hsub f (List.mem_cons_of_mem _ hf)) ?_ hgo
      intro k v hk
      rw [Dict.lookup_insert] at hk
      by_cases hkc : c₀ = k
      · rw [if_pos hkc] at hk
        exact ⟨f₀, c₀, hsub f₀ (List.mem_cons_self _ _), hc,
          (Option.some.inj hk).symm, Or.inr hkc.symm⟩
      · rw [if_neg hkc] at hk
        rw [Dict.lookup_insert] at hk
        by_cases hkn : f₀.name = k
        · rw [if_pos hkn] at hk
          exact ⟨f₀, c₀, hsub f₀ (List.mem_cons_self _ _), hc,
            (Option.some.inj hk).symm, Or.inl hkn.symm⟩
        · rw [if_neg hkn] at hk
          exact h0 k v hk

/-- Claim C10 as amended: provided no bundle file's own name collides with
a different file's canonical target (`noAliasCollision` — the
counterexample `fdsX` violates exactly this), the PathRewriteMap maps every
canonical target to itself, hence is idempotent as a function, and applying
`_create_compatible_file_descriptor_set` to an already-rewritten bundle
with the same map returns the bundle unchanged. -/
theorem c10_rewrite_map_idempotent (fds : FileDescriptorSet) (stf ptd : Dict)
    (hm : _create_default_paths fds stf = .ok ptd)
    (hcoll : noAliasCollision stf fds = true) :
    (∀ k v, Dict.lookup ptd k = some v → Dict.lookup ptd v = some v)
    ∧ ∀ fds', _create_compatible_file_descriptor_set fds ptd = .ok fds' →
        _create_compatible_file_descriptor_set fds' ptd = .ok fds' := by
  have hshape := defaultPathsGo_shape stf fds.file fds.file [] ptd
    (fun f hf => hf) (fun k v hkv => by simp [Dict.lookup] at hkv) hm
  have hself : ∀ k v, Dict.lookup ptd k = some v → Dict.lookup ptd v = some v := by
    intro k v hk
    obtain ⟨f, c, hf, hcanon, hvc, hks⟩ := hshape k v hk
    rw [hvc]
    obtain ⟨c', hcanon', hn', hcp'⟩ := defaultPathsGo_presence stf fds.file [] ptd f hm hf
    have hc'c : c' = c := by
      rw [hcanon] at hcanon'
      exact (Except.ok.inj hcanon').symm
    rw [hc'c] at hcp'
    cases hw : Dict.lookup ptd c with
    | none => exact absurd hw hcp'
    | some w =>
      obtain ⟨g, cg, hg, hcanong, hwcg, hcs⟩ := hshape c w hw
      rcases hcs with hgn | hcc
      · have hgc := noAliasCollision_spec stf fds hcoll f g hf hg c hcanon hgn.symm
        have hcgc : cg = c := by
          rw [hcanong] at hgc
          exact Except.ok.inj hgc
        rw [hwcg, hcgc]
      · rw [hwcg, ← hcc]
  refine ⟨hself, fun fds' hrw => ?_⟩
  simp only [_create_compatible_file_descriptor_set] at hrw ⊢
  cases hfs : rewriteFiles ptd fds.file with
  | error e => rw [hfs] at hrw; cases hrw
  | ok fs' =>
    rw [hfs] at hrw
    have hfds' : fds' = ⟨fs'⟩ := (Except.ok.inj hrw).symm
    subst hfds'
    have hvals := rewriteFiles_values ptd fds.file fs' hfs
    have hid : rewriteFiles ptd fs' = .ok fs' := by
      apply rewriteFiles_id
      intro f' hf'
      obtain ⟨⟨k, hk⟩, hdeps'⟩ := hvals f' hf'
      refine ⟨hself k f'.name hk, fun d hd => ?_⟩
      obtain ⟨k', hk'⟩ := hdeps' d hd
      exact hself k' d hk'
    rw [hid]

def ptdA : Dict := [("a/b.proto", "a/b.proto")]

/-- Witness for the amended C10 at the collision-free Scenario A bundle. -/
theorem c10_rewrite_map_idempotent_witness :
    Dict.lookup ptdA "a/b.proto" = some "a/b.proto" :=
  (c10_rewrite_map_idempotent fdsA [] ptdA (by decide) (by decide)).1
    "a/b.proto" "a/b.proto" (by decide)

/-! ### C1 -/

/-- Claim C1 (compatibility-conflict detection): consider a top-level load
request (fresh maps, module-name suffix valid, module not already cached)
over a bundle containing a file two of whose top-level symbols already live
in the default pool under two different canonical file paths (pool file
names being non-falsy real paths).  Then the load fails with a
compatibility-conflict `TypeError` whose components name a bundle file, an
offending symbol of that file with its live canonical path, and the
distinct live canonical path of another symbol of the same file — and the
state is returned untouched: no file of the bundle was registered and no
module was cached by the failing call. -/
theorem c1_compat_conflict (fuel : Nat) (m : String) (fds : FileDescriptorSet)
    (st : St)
    (hend : pyEndsWith m "_pb2" = true)
    (hcache : lookupModule st.modules m = none)
    (hnames : ∀ g ∈ st.pool.files, g.name ≠ "")
    (f : FileDescriptorProto) (hf : f ∈ fds.file) (s₁ s₂ : String)
    (hs₁ : s₁ ∈ symbolsOf f) (hs₂ : s₂ ∈ symbolsOf f)
    (g₁ g₂ : FileDescriptorProto)
    (h₁ : Pool.findFileContainingSymbol st.pool.files
      (_proto_full_name f.package s₁) = some g₁)
    (h₂ : Pool.findFileContainingSymbol st.pool.files
      (_proto_full_name f.package s₂) = some g₂)
    (hne : g₁.name ≠ g₂.name) :
    ∃ (e : PyErr) (f' : FileDescriptorProto) (a b p q : String),
      import_from_file_descriptor_set (fuel + 1) m fds none none st
        = (.error e, st)
      ∧ e = .compatConflict f'.name (_proto_full_name f'.package a) p q
      ∧ f' ∈ fds.file ∧ a ∈ symbolsOf f' ∧ b ∈ symbolsOf f' ∧ p ≠ q
      ∧ (∃ gp, Pool.findFileContainingSymbol st.pool.files
          (_proto_full_name f'.package a) = some gp ∧ gp.name = p)
      ∧ (∃ gq, Pool.findFileContainingSymbol st.pool.files
          (_proto_full_name f'.package b) = some gq ∧ gq.name = q) := by
  have hl₁ : Dict.lookup (_create_symbol_to_file fds st.pool.files)
      (_proto_full_name f.package s₁) = some g₁.name :=
    create_symbol_to_file_hit fds st.pool.files f s₁ g₁ hf hs₁ h₁
  have hl₂ : Dict.lookup (_create_symbol_to_file fds st.pool.files)
      (_proto_full_name f.package s₂) = some g₂.name :=
    create_symbol_to_file_hit fds st.pool.files f s₂ g₂ hf hs₂ h₂
  have hg₁mem : g₁ ∈ st.pool.files := List.mem_of_find?_eq_some h₁
  have hg₂mem : g₂ ∈ st.pool.files := List.mem_of_find?_eq_some h₂
  obtain ⟨e₀, he₀⟩ := fileCanonical_conflict
    (_create_symbol_to_file fds st.pool.files) f s₁ s₂ g₁.name g₂.name hs₁ hs₂
    hl₁ hl₂ (hnames g₁ hg₁mem) (hnames g₂ hg₂mem) hne
  obtain ⟨e, herr⟩ := defaultPathsGo_conflict
    (_create_symbol_to_file fds st.pool.files) fds.file [] f e₀ hf he₀
  obtain ⟨f', hf', hfe'⟩ := defaultPathsGo_error
    (_create_symbol_to_file fds st.pool.files) fds.file [] e herr
  obtain ⟨a, p, q, ha, heqe, hpa, hqp, b, hb, hqb⟩ :=
    fileCanonical_error (_create_symbol_to_file fds st.pool.files) f' e hfe'
  obtain ⟨gp, hgp, hpgp⟩ :=
    create_symbol_to_file_shape fds st.pool.files _ p hpa
  obtain ⟨gq, hgq, hqgq⟩ :=
    create_symbol_to_file_shape fds st.pool.files _ q hqb
  have herr' : _create_default_paths fds
      (_create_symbol_to_file fds st.pool.files) = .error e := herr
  have hrun : import_from_file_descriptor_set (fuel + 1) m fds none none st
      = (.error e, st) := by
    simp [import_from_file_descriptor_set, hend, hcache, herr']
  exact ⟨e, f', a, b, p, q, hrun, heqe, hf', ha, hb,
    fun hpq => hqp hpq.symm, ⟨gp, hgp, hpgp.symm⟩, ⟨gq, hgq, hqgq.symm⟩⟩

/-- The live pool for the C1 witness: `M1` lives in `p1.proto`, `M2` in
`p2.proto`. -/
def poolC1 : List FileDescriptorProto :=
  [mkMsgFile "p1.proto" ["M1"] [], mkMsgFile "p2.proto" ["M2"] []]

/-- The conflicting bundle file for the C1 witness: it declares both `M1`
and `M2`. -/
def fC1 : FileDescriptorProto := mkMsgFile "f.proto" ["M1", "M2"] []

def fdsC1 : FileDescriptorSet := { file := [fC1] }

def stC1 : St := { pool := { files := poolC1 }, modules := [] }

/-- Witness for C1 at the concrete two-path conflict. -/
theorem c1_compat_conflict_witness :
    ∃ (e : PyErr) (f' : FileDescriptorProto) (a b p q : String),
      import_from_file_descriptor_set 3 "f_pb2" fdsC1 none none stC1
        = (.error e, stC1)
      ∧ e = .compatConflict f'.name (_proto_full_name f'.package a) p q
      ∧ f' ∈ fdsC1.file ∧ a ∈ symbolsOf f' ∧ b ∈ symbolsOf f' ∧ p ≠ q
      ∧ (∃ gp, Pool.findFileContainingSymbol stC1.pool.files
          (_proto_full_name f'.package a) = some gp ∧ gp.name = p)
      ∧ (∃ gq, Pool.findFileContainingSymbol stC1.pool.files
          (_proto_full_name f'.package b) = some gq ∧ gq.name = q) :=
  c1_compat_conflict 2 "f_pb2" fdsC1 stC1 (by decide) (by decide) (by decide)
    fC1 (by decide) "M1" "M2" (by decide) (by decide)
    (mkMsgFile "p1.proto" ["M1"] []) (mkMsgFile "p2.proto" ["M2"] [])
    (by decide) (by decide) (by decide)

end CodeExec
